import Mathlib

/-!
Verification of the csp-lod-bodies LOD core (CosmoScout VR).

This file gives a shallow embedding of the parts of the source that the
claims are about:

* the culling / refinement geometry of LODVisitor.cpp (testInFrustum,
  testFrontFacing, testNeedRefine),
* the traversal bookkeeping of LODVisitor.cpp (preTraverse, preVisit,
  visitNode, handleRefine, addLoadChildrenDEM / addLoadChildrenIMG,
  drawLevel) together with the recursive descent of the TileVisitor base
  class,
* the per-frame orchestration of VistaPlanet.cpp (updateTileBounds,
  setRadii, setHeightScale, setDEMSource, setIMGSource),
* the renderer guard of TileRenderer.cpp (renderTiles).

Double-precision values are modelled by real numbers.  Code of the
repository that is not part of the given sources (TileVisitor, TreeManager,
Frustum, HEALPix, the flag constants of VistaPlanet.hpp) is modelled from
the specification; every such definition says so in its doc comment.
-/

namespace CosmoScout

/-- Three component vector of doubles (glm::dvec3), components modelled as
real numbers. -/
structure Vec3 where
  x : ℝ
  y : ℝ
  z : ℝ

/-- Componentwise difference of two vectors (glm operator-). -/
def Vec3.sub (a b : Vec3) : Vec3 :=
  ⟨a.x - b.x, a.y - b.y, a.z - b.z⟩

/-- Scaling a vector by a scalar (glm scalar multiplication / division). -/
def Vec3.scale (s : ℝ) (v : Vec3) : Vec3 :=
  ⟨s * v.x, s * v.y, s * v.z⟩

/-- Dot product of two vectors (glm::dot). -/
def dot3 (a b : Vec3) : ℝ :=
  a.x * b.x + a.y * b.y + a.z * b.z

/-- Euclidean length of a vector (glm::length). -/
noncomputable def length3 (v : Vec3) : ℝ :=
  Real.sqrt (dot3 v v)

/-- glm::normalize - the vector divided by its length. -/
noncomputable def normalize3 (v : Vec3) : Vec3 :=
  Vec3.scale (1 / length3 v) v

/-- Axis aligned bounding box (BoundingBox<double>) with its minimum corner
getMin() and maximum corner getMax(). -/
structure BBox where
  bmin : Vec3
  bmax : Vec3

/-- The eight corner points of the bounding box of a tile, in exactly the order
the arrays tbPnts are written in LODVisitor.cpp (testInFrustum and
testFrontFacing). -/
def boxCorners (tb : BBox) : List Vec3 :=
  [⟨tb.bmin.x, tb.bmin.y, tb.bmin.z⟩, ⟨tb.bmax.x, tb.bmin.y, tb.bmin.z⟩,
    ⟨tb.bmax.x, tb.bmin.y, tb.bmax.z⟩, ⟨tb.bmin.x, tb.bmin.y, tb.bmax.z⟩,
    ⟨tb.bmin.x, tb.bmax.y, tb.bmin.z⟩, ⟨tb.bmax.x, tb.bmax.y, tb.bmin.z⟩,
    ⟨tb.bmax.x, tb.bmax.y, tb.bmax.z⟩, ⟨tb.bmin.x, tb.bmax.y, tb.bmax.z⟩]

/-- One frustum plane, a glm::dvec4 as stored by Frustum::getPlanes().
testInFrustum reads the normal from the first three components and the
plane offset as d = -plane[3]. -/
structure Plane where
  a : ℝ
  b : ℝ
  c : ℝ
  w : ℝ

/-- The plane normal, glm::dvec3 of the first three components. -/
def Plane.normal (p : Plane) : Vec3 :=
  ⟨p.a, p.b, p.c⟩

/-- The plane offset d = -plane[3] computed by testInFrustum. -/
def Plane.dist (p : Plane) : ℝ :=
  -(p.w)

/-- Model of the Frustum class.  The plane list corresponds to getPlanes().
Modelled from the spec: the bodies of Frustum::setFromMatrix,
getHorizontalFOV and getVerticalFOV are not among the given sources, so the
two fields of view are carried as data (spec 4.4.2 uses
fov = max(horizFov, vertFov)). -/
structure Frustum where
  planes : List Plane
  horizontalFOV : ℝ
  verticalFOV : ℝ

/-- Inner loop of testInFrustum for one plane: some corner of the box lies
inside the halfspace of the plane, i.e. dot(normal, corner) >= d.  The
source sets outside = false and exits the corner loop as soon as such a
corner is found. -/
def cornerInsideHalfspace (p : Plane) (tb : BBox) : Prop :=
  ∃ c ∈ boxCorners tb, Plane.dist p ≤ dot3 (Plane.normal p) c

/-- Plane loop of testInFrustum (LODVisitor.cpp, lines 42-84): the box
passes every plane of the list; the early exit of the source loop (result =
false on the first fully excluding plane) corresponds to the conjunction. -/
def testInFrustumPlanes (tb : BBox) : List Plane → Prop
  | [] => True
  | p :: ps => cornerInsideHalfspace p tb ∧ testInFrustumPlanes tb ps

/-- testInFrustum of LODVisitor.cpp: the box intersects the frustum. -/
def testInFrustum (frustum : Frustum) (tb : BBox) : Prop :=
  testInFrustumPlanes tb frustum.planes

/-- Spec 4.4.1: a box is outside one plane iff all eight corners lie in the
negative halfspace of the plane. -/
def specOutsidePlane (p : Plane) (tb : BBox) : Prop :=
  ∀ c ∈ boxCorners tb, dot3 (Plane.normal p) c < Plane.dist p

/-- Spec 4.4.1: the frustum test reports the box outside iff there is a
frustum plane for which all eight corners lie in the negative halfspace. -/
def specFrustumOutside (frustum : Frustum) (tb : BBox) : Prop :=
  ∃ p ∈ frustum.planes, specOutsidePlane p tb

/-- Spec 4.4.1: the box is visible iff for every plane some corner lies in
the positive halfspace (which keeps the box live for that plane). -/
def specFrustumVisible (frustum : Frustum) (tb : BBox) : Prop :=
  ∀ p ∈ frustum.planes, ∃ c ∈ boxCorners tb, Plane.dist p ≤ dot3 (Plane.normal p) c

theorem testInFrustumPlanes_iff (tb : BBox) (ps : List Plane) :
    testInFrustumPlanes tb ps ↔ ∀ p ∈ ps, cornerInsideHalfspace p tb := by
  induction ps with
  | nil => simp [testInFrustumPlanes]
  | cons p ps ih => simp [testInFrustumPlanes, ih]

/-- C5: the frustum test reports the box outside iff there exists a frustum
plane for which all eight box corners lie in the negative
halfspace; any corner in the positive halfspace keeps the box live for that
plane, and the box is visible iff it survives all planes. -/
theorem frustum_test_outside_iff (frustum : Frustum) (tb : BBox) :
    (¬ testInFrustum frustum tb ↔ specFrustumOutside frustum tb) ∧
      (testInFrustum frustum tb ↔ specFrustumVisible frustum tb) := by
  have hvis : testInFrustum frustum tb ↔ specFrustumVisible frustum tb := by
    rw [testInFrustum, testInFrustumPlanes_iff]
    unfold specFrustumVisible cornerInsideHalfspace
    rfl
  refine ⟨?_, hvis⟩
  rw [hvis]
  unfold specFrustumVisible specFrustumOutside specOutsidePlane
  push_neg
  rfl

/-- Witness for frustum_test_outside_iff at a concrete frustum of one plane
and the unit box. -/
theorem frustum_test_outside_iff_witness :
    (¬ testInFrustum ⟨[⟨1, 0, 0, 0⟩], 1, 1⟩ ⟨⟨0, 0, 0⟩, ⟨1, 1, 1⟩⟩ ↔
        specFrustumOutside ⟨[⟨1, 0, 0, 0⟩], 1, 1⟩ ⟨⟨0, 0, 0⟩, ⟨1, 1, 1⟩⟩) ∧
      (testInFrustum ⟨[⟨1, 0, 0, 0⟩], 1, 1⟩ ⟨⟨0, 0, 0⟩, ⟨1, 1, 1⟩⟩ ↔
        specFrustumVisible ⟨[⟨1, 0, 0, 0⟩], 1, 1⟩ ⟨⟨0, 0, 0⟩, ⟨1, 1, 1⟩⟩) :=
  frustum_test_outside_iff ⟨[⟨1, 0, 0, 0⟩], 1, 1⟩ ⟨⟨0, 0, 0⟩, ⟨1, 1, 1⟩⟩

/-- Componentwise sum of two vectors (glm operator+). -/
def Vec3.add (a b : Vec3) : Vec3 :=
  ⟨a.x + b.x, a.y + b.y, a.z + b.z⟩

/-- TileId (TileId.hpp is not among the given sources).  Modelled from the
spec: a tile is named by its subdivision level and its patch index; the
preTraverse constructor calls TileId(0, i) supply level and patch index in
this order.  The level is a C++ int, the patch index a 64 bit integer. -/
structure TileId where
  level : ℤ
  patchIdx : ℤ
deriving DecidableEq, Repr

/-- PlanetParameters (PlanetParameters.hpp is not among the given sources).
Modelled from the spec (section 6): ellipsoid radii, height scale, LOD
factor and the minimum and maximum subdivision levels, matching the member
accesses mRadii, mHeightScale, mLodFactor, mMinLevel, mMaxLevel in the
sources. -/
structure PlanetParameters where
  radii : Vec3
  heightScale : ℝ
  lodFactor : ℝ
  minLevel : ℤ
  maxLevel : ℤ

/-- std::numeric_limits<float>::max(), the start value of the minimum height
fold in testFrontFacing. -/
def fltMax : ℝ :=
  3.40282347e38

/-- The loop of testFrontFacing computing the minimum height over the twelve
base patch DEM tiles, unrolled: minHeight starts at the largest float and is
lowered by min against the pyramid minimum of each root.  The function m gives
getMinMaxPyramid()->getMin() of the root tiles of the DEM tree. -/
def minHeightLoop (m : Fin 12 → ℝ) : ℝ :=
  min (min (min (min (min (min (min (min (min (min (min (min fltMax
    (m 0)) (m 1)) (m 2)) (m 3)) (m 4)) (m 5)) (m 6)) (m 7)) (m 8)) (m 9)) (m 10)) (m 11)

/-- The radius of the proxy culling sphere computed by testFrontFacing:
min of the three ellipsoid radii plus minHeight * heightScale. -/
def proxyRadius (radii : Vec3) (heightScale : ℝ) (m : Fin 12 → ℝ) : ℝ :=
  min radii.x (min radii.y radii.z) + minHeightLoop m * heightScale

/-- Body of the per corner loop of testFrontFacing (LODVisitor.cpp, lines
116-140): the corner point p is not occluded by the proxy sphere of radius
r.  The three disjuncts are the three early return true conditions of the
source, in order: no intersection, both intersection points behind the
camera, corner in front of the sphere. -/
noncomputable def cornerUnoccluded (camPos p : Vec3) (r : ℝ) : Prop :=
  let dRayLength := length3 (Vec3.sub p camPos)
  let vRayDir := Vec3.scale (1 / dRayLength) (Vec3.sub p camPos)
  let b := dot3 camPos vRayDir
  let c := dot3 camPos camPos - r * r
  let fDet := b * b - c
  fDet < 0 ∨
    ((-b - Real.sqrt fDet < 0 ∧ -b + Real.sqrt fDet < 0) ∨ dRayLength < -b - Real.sqrt fDet)

/-- testFrontFacing of LODVisitor.cpp (lines 90-143): the box is front
facing iff some corner of its bounding box is not occluded by the proxy
sphere; the corner loop returns true on the first unoccluded corner and
false after the loop. -/
noncomputable def testFrontFacing (camPos : Vec3) (radii : Vec3) (heightScale : ℝ)
    (m : Fin 12 → ℝ) (tb : BBox) : Prop :=
  ∃ p ∈ boxCorners tb, cornerUnoccluded camPos p (proxyRadius radii heightScale m)

/-- Spec 4.4.1: minHeight is the minimum of all twelve base patch DEM
minima, written as a nested minimum. -/
def specMinHeight (m : Fin 12 → ℝ) : ℝ :=
  min (m 0) (min (m 1) (min (m 2) (min (m 3) (min (m 4) (min (m 5) (min (m 6)
    (min (m 7) (min (m 8) (min (m 9) (min (m 10) (m 11)))))))))))

/-- Spec 4.4.1: the proxy sphere radius is min(radii) + minHeight * heightScale. -/
def specProxyRadius (radii : Vec3) (heightScale : ℝ) (m : Fin 12 → ℝ) : ℝ :=
  min radii.x (min radii.y radii.z) + specMinHeight m * heightScale

/-- Spec 4.4.1: a corner is unoccluded iff the camera-to-corner ray misses
the sphere (negative discriminant), or both ray-sphere intersection points
lie behind the camera, or the ray enters the sphere beyond the corner
distance. -/
noncomputable def specCornerUnoccluded (camPos p : Vec3) (r : ℝ) : Prop :=
  let dir := normalize3 (Vec3.sub p camPos)
  let b := dot3 camPos dir
  let det := b ^ 2 - (dot3 camPos camPos - r ^ 2)
  det < 0 ∨
    ((-b - Real.sqrt det < 0 ∧ -b + Real.sqrt det < 0) ∨
      length3 (Vec3.sub p camPos) < -b - Real.sqrt det)

/-- Spec 4.4.1: the box is front facing iff at least one of its eight
corners is unoccluded by the proxy sphere. -/
noncomputable def specFrontFacing (camPos : Vec3) (radii : Vec3) (heightScale : ℝ)
    (m : Fin 12 → ℝ) (tb : BBox) : Prop :=
  ∃ p ∈ boxCorners tb, specCornerUnoccluded camPos p (specProxyRadius radii heightScale m)

theorem minHeightLoop_eq_specMinHeight (m : Fin 12 → ℝ) (h : m 0 ≤ fltMax) :
    minHeightLoop m = specMinHeight m := by
  unfold minHeightLoop specMinHeight
  rw [min_eq_right h]
  simp only [min_assoc]

theorem proxyRadius_eq_specProxyRadius (radii : Vec3) (heightScale : ℝ)
    (m : Fin 12 → ℝ) (h : m 0 ≤ fltMax) :
    proxyRadius radii heightScale m = specProxyRadius radii heightScale m := by
  unfold proxyRadius specProxyRadius
  rw [minHeightLoop_eq_specMinHeight m h]

theorem cornerUnoccluded_iff_spec (camPos p : Vec3) (r : ℝ) :
    cornerUnoccluded camPos p r ↔ specCornerUnoccluded camPos p r := by
  unfold cornerUnoccluded specCornerUnoccluded normalize3
  simp only [pow_two]

/-- C6: the horizon test declares a box front facing iff at least one of its
eight corners is unoccluded by the proxy sphere of radius
min(radii) + minHeight * heightScale, minHeight being the minimum over all
twelve base patch DEM minima; a corner is unoccluded iff the ray misses the
sphere, both intersection points lie behind the camera, or the ray enters
the sphere beyond the corner distance.  The hypothesis states that the base
patch minima are float values, i.e. bounded by the largest float that seeds
the fold of the source. -/
theorem front_facing_iff_spec (camPos : Vec3) (radii : Vec3) (heightScale : ℝ)
    (m : Fin 12 → ℝ) (tb : BBox) (h : m 0 ≤ fltMax) :
    testFrontFacing camPos radii heightScale m tb ↔
      specFrontFacing camPos radii heightScale m tb := by
  unfold testFrontFacing specFrontFacing
  rw [proxyRadius_eq_specProxyRadius radii heightScale m h]
  refine exists_congr fun p => and_congr_right fun _ => ?_
  exact cornerUnoccluded_iff_spec camPos p _

/-- Witness for front_facing_iff_spec at a concrete configuration: camera on
the positive x axis, unit sphere radii, all base patch minima zero. -/
theorem front_facing_iff_spec_witness :
    (fun _ : Fin 12 => (0 : ℝ)) 0 ≤ fltMax ∧
      (testFrontFacing ⟨2, 0, 0⟩ ⟨1, 1, 1⟩ 1 (fun _ => 0) ⟨⟨0, 0, 0⟩, ⟨1, 1, 1⟩⟩ ↔
        specFrontFacing ⟨2, 0, 0⟩ ⟨1, 1, 1⟩ 1 (fun _ => 0) ⟨⟨0, 0, 0⟩, ⟨1, 1, 1⟩⟩) := by
  have h : (fun _ : Fin 12 => (0 : ℝ)) 0 ≤ fltMax := by norm_num [fltMax]
  exact ⟨h, front_facing_iff_spec ⟨2, 0, 0⟩ ⟨1, 1, 1⟩ 1 (fun _ => 0) ⟨⟨0, 0, 0⟩, ⟨1, 1, 1⟩⟩ h⟩

/-- The center of the bounding box computed by testNeedRefine:
tbCenter = 0.5 * (tbMin + tbMax). -/
noncomputable def boxCenter (tb : BBox) : Vec3 :=
  Vec3.scale (1 / 2) (Vec3.add tb.bmin tb.bmax)

/-- The loop of testNeedRefine (LODVisitor.cpp, lines 500-517): the eight
direction vectors from the camera to the bounding box corners are listed in
the same order as boxCorners; maxAngle starts at 0 and is raised by
max(acos(min(1, dot(dir, centerDir))), maxAngle) for each direction. -/
noncomputable def maxAngleLoop (camPos : Vec3) (tb : BBox) : ℝ :=
  let centerDir := normalize3 (Vec3.sub (boxCenter tb) camPos)
  ((boxCorners tb).map fun p => normalize3 (Vec3.sub p camPos)).foldl
    (fun acc dir => max (Real.arccos (min 1 (dot3 dir centerDir))) acc) 0

/-- The refinement ratio of testNeedRefine:
ratio = maxAngle / fov * lodFactor with fov = max(horizontal, vertical). -/
noncomputable def refineRatio (camPos : Vec3) (frustumES : Frustum) (lodFactor : ℝ)
    (tb : BBox) : ℝ :=
  let fov := max frustumES.horizontalFOV frustumES.verticalFOV
  maxAngleLoop camPos tb / fov * lodFactor

/-- testNeedRefine of LODVisitor.cpp (lines 483-533).  If the traversal
state has no DEM node the result stays false.  Otherwise the result is
ratio > 10, overridden to true when mMinLevel > tileId.level(). -/
noncomputable def testNeedRefine (params : PlanetParameters) (camPos : Vec3)
    (frustumES : Frustum) (nodeDEM : Option TileId) (bounds : BBox)
    (tileId : TileId) : Prop :=
  match nodeDEM with
  | none => False
  | some _ =>
    if params.minLevel > tileId.level then True
    else refineRatio camPos frustumES params.lodFactor bounds > 10

/-- Spec 4.4.2: the maximum angular separation
alpha = max over the eight corners of acos(clamp(dot, -1, 1)); since every
arccos value is nonnegative the 0-seeded fold below is that maximum. -/
noncomputable def specAlpha (camPos : Vec3) (tb : BBox) : ℝ :=
  let centerDir := normalize3 (Vec3.sub (boxCenter tb) camPos)
  ((boxCorners tb).map fun p => normalize3 (Vec3.sub p camPos)).foldl
    (fun acc dir => max (Real.arccos (max (-1) (min 1 (dot3 dir centerDir)))) acc) 0

/-- Spec 4.4.2: the refinement ratio r = alpha / fov * lodFactor with
fov = max(horizFov, vertFov). -/
noncomputable def specRefineRatio (camPos : Vec3) (frustumES : Frustum) (lodFactor : ℝ)
    (tb : BBox) : ℝ :=
  specAlpha camPos tb / max frustumES.horizontalFOV frustumES.verticalFOV * lodFactor

/-- The source clamps the dot product only from above before taking acos,
the spec clamps from both sides; over the total real arccos (which sends
every value below -1 to pi) the two agree. -/
theorem arccos_min_one_eq_arccos_clamp (d : ℝ) :
    Real.arccos (min 1 d) = Real.arccos (max (-1) (min 1 d)) := by
  rcases le_or_lt (-1) (min 1 d) with hl | hl
  · rw [max_eq_right hl]
  · rw [max_eq_left hl.le]
    rw [Real.arccos, Real.arccos, Real.arcsin_of_le_neg_one hl.le,
      Real.arcsin_of_le_neg_one le_rfl]

theorem maxAngleLoop_eq_specAlpha (camPos : Vec3) (tb : BBox) :
    maxAngleLoop camPos tb = specAlpha camPos tb := by
  unfold maxAngleLoop specAlpha
  have hfun :
      (fun (acc : ℝ) (dir : Vec3) =>
          max (Real.arccos (min 1 (dot3 dir (normalize3 (Vec3.sub (boxCenter tb) camPos))))) acc) =
        fun (acc : ℝ) (dir : Vec3) =>
          max (Real.arccos (max (-1)
            (min 1 (dot3 dir (normalize3 (Vec3.sub (boxCenter tb) camPos)))))) acc := by
    funext acc dir
    rw [arccos_min_one_eq_arccos_clamp]
  simp only [hfun]

theorem refineRatio_eq_specRefineRatio (camPos : Vec3) (frustumES : Frustum)
    (lodFactor : ℝ) (tb : BBox) :
    refineRatio camPos frustumES lodFactor tb = specRefineRatio camPos frustumES lodFactor tb := by
  unfold refineRatio specRefineRatio
  rw [maxAngleLoop_eq_specAlpha]

/-- C2: for a visited node whose traversal state has a DEM node,
testNeedRefine returns true iff minLevel > tileId.level or the ratio
r = alpha / fov * lodFactor exceeds 10, where alpha is the maximum over the
eight bounding box corners of acos(clamp(dot of normalized directions, -1, 1))
and fov = max(horizontal FOV, vertical FOV). -/
theorem testNeedRefine_iff_spec (params : PlanetParameters) (camPos : Vec3)
    (frustumES : Frustum) (nodeDEM : Option TileId) (bounds : BBox) (tileId : TileId)
    (nd : TileId) (h : nodeDEM = some nd) :
    testNeedRefine params camPos frustumES nodeDEM bounds tileId ↔
      (params.minLevel > tileId.level ∨
        specRefineRatio camPos frustumES params.lodFactor bounds > 10) := by
  subst h
  unfold testNeedRefine
  rw [refineRatio_eq_specRefineRatio]
  by_cases hm : params.minLevel > tileId.level
  · simp [hm]
  · simp [hm]

/-- Witness for testNeedRefine_iff_spec at a concrete configuration. -/
theorem testNeedRefine_iff_spec_witness :
    (some (TileId.mk 2 5) = some (TileId.mk 2 5)) ∧
      (testNeedRefine ⟨⟨1, 1, 1⟩, 1, 1, 0, 10⟩ ⟨3, 0, 0⟩ ⟨[], 1, 1⟩
          (some (TileId.mk 2 5)) ⟨⟨0, 0, 0⟩, ⟨1, 1, 1⟩⟩ (TileId.mk 2 5) ↔
        ((0 : ℤ) > (2 : ℤ) ∨
          specRefineRatio ⟨3, 0, 0⟩ ⟨[], 1, 1⟩ 1 ⟨⟨0, 0, 0⟩, ⟨1, 1, 1⟩⟩ > 10)) :=
  ⟨rfl, testNeedRefine_iff_spec ⟨⟨1, 1, 1⟩, 1, 1, 0, 10⟩ ⟨3, 0, 0⟩ ⟨[], 1, 1⟩
    (some (TileId.mk 2 5)) ⟨⟨0, 0, 0⟩, ⟨1, 1, 1⟩⟩ (TileId.mk 2 5) (TileId.mk 2 5) rfl⟩

/-- Per node residency data (RenderData; its header is not among the given
sources).  Modelled from the spec (section 3): textureLayer is at least 0
exactly while the samples of the tile are resident in the GPU texture array and
-1 otherwise; this is the value getTexLayer() returns.  The mutable
lastUsedFrame stamps are tracked as maps in the traversal state, mirroring
the setLastFrame calls of the sources. -/
structure NodeData where
  texLayer : ℤ
deriving DecidableEq, Repr

/-- A tile quad tree (TileQuadTree; not among the given sources).  Modelled
from the spec (section 3): a node exists at a TileId iff the map yields
data; getRoot(i) is the lookup of TileId 0 i and node->getChild(i) the
lookup of the child TileId.  sNumRoots = 12. -/
def TileTree : Type :=
  TileId → Option NodeData

/-- HEALPix::getChildTileId (HEALPix.hpp is not among the given sources).
Modelled from the spec (section 4.1): child ids of a level L tile have
level L + 1 and patch indices that are a function of the parent patch
index; the quad tree numbering 4 * patchIdx + childIdx is used. -/
def getChildTileId (tileId : TileId) (i : ℤ) : TileId :=
  ⟨tileId.level + 1, 4 * tileId.patchIdx + i⟩

/-- The four child indices iterated by the loops for (int i = 0; i < 4; ++i). -/
def childIdxs : List ℤ :=
  [0, 1, 2, 3]

/-- The twelve root indices iterated by the loop over TileQuadTree::sNumRoots. -/
def rootIdxs : List ℤ :=
  [0, 1, 2, 3, 4, 5, 6, 7, 8, 9, 10, 11]

/-- childrenAvailable of LODVisitor.cpp (lines 149-167): all four children
of the node exist and are uploaded to the GPU.  The RenderData lookup
findRData is the node data itself in this model; a missing child or a
texture layer below 0 gives false. -/
def childrenAvailable (t : TileTree) (id : TileId) : Bool :=
  childIdxs.all fun i =>
    match t (getChildTileId id i) with
    | none => false
    | some nd => decide (0 ≤ nd.texLayer)

/-- Traversal state of one stack level: TileVisitor::StateBase gives the
DEM and IMG nodes of the visited tile (TileVisitor.hpp is not among the
given sources; modelled from the spec, section 3, visitor stack state) and
LODVisitor::LODState adds the two RenderData pointers, represented here by
the TileId of the node whose data they are. -/
structure LODState where
  nodeDEM : Option TileId
  nodeIMG : Option TileId
  rdDEM : Option TileId
  rdIMG : Option TileId
deriving DecidableEq, Repr

/-- A 4x4 double matrix (glm::dmat4). -/
abbrev Mat4 :=
  Matrix (Fin 4) (Fin 4) ℝ

/-- A 3x3 double matrix (glm::f64mat3x3). -/
abbrev Mat3 :=
  Matrix (Fin 3) (Fin 3) ℝ

/-- glm::f64mat3x3 applied to a 4x4 matrix: the upper left 3x3 block. -/
def upperLeft3 (mat : Mat4) : Mat3 :=
  Matrix.of fun i j => mat (Fin.castSucc i) (Fin.castSucc j)

/-- glm::inverseTranspose of the upper left 3x3 block of the modelview
matrix, used for mMatN. -/
noncomputable def inverseTranspose3 (mat : Mat4) : Mat3 :=
  Matrix.transpose (upperLeft3 mat)⁻¹

/-- The camera position derived in preTraverse: column 3 of
glm::inverse(mMatVM), truncated to its first three components. -/
noncomputable def camPosOf (matVM : Mat4) : Vec3 :=
  ⟨matVM⁻¹ 0 3, matVM⁻¹ 1 3, matVM⁻¹ 2 3⟩

/-- LODVisitor::LODData - information relevant for LOD selection. -/
structure LODData where
  matVM : Mat4
  matP : Mat4
  frustumES : Frustum
  viewport : ℤ × ℤ × ℤ × ℤ

/-- LODVisitor::CullData - information relevant for frustum culling. -/
structure CullData where
  frustumMS : Frustum
  matN : Mat3
  camPos : Vec3

/-- The mutable per frame state of LODVisitor: externally set matrices,
viewport and frame count, the derived LOD and culling data, the two update
flags, the four output lists and the lastUsedFrame stamps of both
channels.  Render list entries carry the TileId of the node whose
RenderData was pushed; none stands for a null pointer. -/
structure LODVisitorState where
  viewport : ℤ × ℤ × ℤ × ℤ
  matVM : Mat4
  matP : Mat4
  lodData : LODData
  cullData : CullData
  frameCount : ℤ
  updateLOD : Bool
  updateCulling : Bool
  loadDEM : List TileId
  loadIMG : List TileId
  renderDEM : List (Option TileId)
  renderIMG : List (Option TileId)
  lastDEM : TileId → ℤ
  lastIMG : TileId → ℤ

/-- One iteration of the root presence loop of preTraverse (LODVisitor.cpp,
lines 264-279): for an attached tree a missing root pushes TileId(0, i)
onto the corresponding load list and sets the result to false. -/
def rootStep (treeDEM treeIMG : Option TileTree) (acc : LODVisitorState × Bool)
    (i : ℤ) : LODVisitorState × Bool :=
  let acc1 :=
    match treeDEM with
    | some t =>
      match t ⟨0, i⟩ with
      | none => ({acc.1 with loadDEM := acc.1.loadDEM ++ [⟨0, i⟩]}, false)
      | some _ => acc
    | none => acc
  match treeIMG with
  | some t =>
    match t ⟨0, i⟩ with
    | none => ({acc1.1 with loadIMG := acc1.1.loadIMG ++ [⟨0, i⟩]}, false)
    | some _ => acc1
  | none => acc1

/-- preTraverse of LODVisitor.cpp (lines 239-282).  The frustumFromMatrix
parameter stands for Frustum::setFromMatrix, whose body is not among the
given sources.  Derived LOD data is refreshed only when mUpdateLOD is set,
derived culling data only when mUpdateCulling is set; then the four output
lists are cleared and the twelve roots of each attached tree are checked. -/
noncomputable def preTraverse (frustumFromMatrix : Mat4 → Frustum)
    (treeDEM treeIMG : Option TileTree) (st : LODVisitorState) :
    LODVisitorState × Bool :=
  let st1 :=
    if st.updateLOD then
      {st with lodData := ⟨st.matVM, st.matP, frustumFromMatrix st.matP, st.viewport⟩}
    else st
  let st2 :=
    if st1.updateCulling then
      {st1 with
        cullData :=
          ⟨frustumFromMatrix (st1.matP * st1.matVM), inverseTranspose3 st1.matVM,
            camPosOf st1.matVM⟩}
    else st1
  let st3 := {st2 with loadDEM := [], loadIMG := [], renderDEM := [], renderIMG := []}
  rootIdxs.foldl (rootStep treeDEM treeIMG) (st3, true)

/-- drawLevel of LODVisitor.cpp (lines 537-558): when a DEM tree manager is
attached the DEM RenderData of the current state is pushed onto mRenderDEM (the
source asserts it is non null), and when an IMG tree manager is attached
the IMG RenderData is pushed onto mRenderIMG. -/
def drawLevel (treeDEM treeIMG : Option TileTree) (s : LODState)
    (st : LODVisitorState) : LODVisitorState :=
  let st1 :=
    match treeDEM with
    | some _ => {st with renderDEM := st.renderDEM ++ [s.rdDEM]}
    | none => st
  match treeIMG with
  | some _ => {st1 with renderIMG := st1.renderIMG ++ [s.rdIMG]}
  | none => st1

/-- Body of the child loop of addLoadChildrenDEM (LODVisitor.cpp, lines
432-441): a missing child is pushed onto mLoadDEM, a present child has its
lastUsedFrame stamped. -/
def loadChildStepDEM (t : TileTree) (frame : ℤ) (id : TileId)
    (acc : LODVisitorState) (i : ℤ) : LODVisitorState :=
  match t (getChildTileId id i) with
  | none => {acc with loadDEM := acc.loadDEM ++ [getChildTileId id i]}
  | some _ =>
    {acc with lastDEM := fun j => if j = getChildTileId id i then frame else acc.lastDEM j}

/-- addLoadChildrenDEM of LODVisitor.cpp (lines 428-443): when the node
exists and its level is below mMaxLevel, each missing child id is pushed
onto mLoadDEM and each already present child has its lastUsedFrame stamped
with the current frame so it is not evicted while its siblings load. -/
def addLoadChildrenDEM (t : TileTree) (maxLevel frame : ℤ) (node : Option TileId)
    (st : LODVisitorState) : LODVisitorState :=
  match node with
  | none => st
  | some id =>
    if id.level < maxLevel then childIdxs.foldl (loadChildStepDEM t frame id) st
    else st

/-- Body of the child loop of addLoadChildrenIMG (LODVisitor.cpp, lines
451-460): the mLoadIMG and lastUsedFrame analogue of loadChildStepDEM. -/
def loadChildStepIMG (t : TileTree) (frame : ℤ) (id : TileId)
    (acc : LODVisitorState) (i : ℤ) : LODVisitorState :=
  match t (getChildTileId id i) with
  | none => {acc with loadIMG := acc.loadIMG ++ [getChildTileId id i]}
  | some _ =>
    {acc with lastIMG := fun j => if j = getChildTileId id i then frame else acc.lastIMG j}

/-- addLoadChildrenIMG of LODVisitor.cpp (lines 447-462), the mLoadIMG and
lastUsedFrame analogue of addLoadChildrenDEM. -/
def addLoadChildrenIMG (t : TileTree) (maxLevel frame : ℤ) (node : Option TileId)
    (st : LODVisitorState) : LODVisitorState :=
  match node with
  | none => st
  | some id =>
    if id.level < maxLevel then childIdxs.foldl (loadChildStepIMG t frame id) st
    else st

/-- handleRefine of LODVisitor.cpp (lines 381-424).  childrenDemAvailable is
false when the state has no DEM node, otherwise childrenAvailable on the DEM
tree; likewise for IMG.  With both managers attached, missing children of
either channel are requested and, unless both channels can refine, the
current level is drawn; with only a DEM manager the DEM children decide;
the returned Bool tells the caller whether to descend. -/
def handleRefine (treeDEM treeIMG : Option TileTree) (maxLevel frame : ℤ)
    (s : LODState) (st : LODVisitorState) : Bool × LODVisitorState :=
  let childrenDemAvailable :=
    match s.nodeDEM, treeDEM with
    | some id, some t => childrenAvailable t id
    | _, _ => false
  let childrenImgAvailable :=
    match s.nodeIMG, treeIMG with
    | some id, some t => childrenAvailable t id
    | _, _ => false
  match treeDEM, treeIMG with
  | some tD, some tI =>
    let st1 :=
      if childrenDemAvailable then st
      else addLoadChildrenDEM tD maxLevel frame s.nodeDEM st
    let st2 :=
      if childrenImgAvailable then st1
      else addLoadChildrenIMG tI maxLevel frame s.nodeIMG st1
    if childrenDemAvailable && childrenImgAvailable then (true, st2)
    else (false, drawLevel treeDEM treeIMG s st2)
  | some tD, none =>
    if childrenDemAvailable then (true, st)
    else (false, drawLevel treeDEM treeIMG s (addLoadChildrenDEM tD maxLevel frame s.nodeDEM st))
  | none, _ => (false, st)

/-- visitNode of LODVisitor.cpp (lines 346-377) with the two geometric tests
supplied as oracles: visible stands for the outcome of testVisible (the
frustum and horizon tests, modelled over the reals above) and refineRatio10
for the outcome ratio > 10 of testNeedRefine; the minimum level override of
testNeedRefine and its false result for a state without DEM node are
integer logic and are kept concrete.  Returns whether children are
visited. -/
def visitNode (treeDEM treeIMG : Option TileTree) (minLevel maxLevel frame : ℤ)
    (visible refineRatio10 : TileId → Bool) (s : LODState) (tileId : TileId)
    (st : LODVisitorState) : Bool × LODVisitorState :=
  if visible tileId then
    let needRefine :=
      match s.nodeDEM with
      | none => false
      | some _ => decide (minLevel > tileId.level) || refineRatio10 tileId
    if needRefine then handleRefine treeDEM treeIMG maxLevel frame s st
    else (false, drawLevel treeDEM treeIMG s st)
  else (false, st)

/-- The state fetch of preVisit / preVisitRoot (LODVisitor.cpp, lines
286-342) combined with the node assignment of the TileVisitor base class
(not among the given sources; modelled from the spec, section 4.4 step 1):
the node of each channel is the tree lookup of the visited id; when a manager is
attached and the node exists, the state uses the RenderData of that node and
stamps its lastUsedFrame with the current frame, otherwise it inherits the
RenderData of the parent (none at a root, where the parent state is empty). -/
def mkState (treeDEM treeIMG : Option TileTree) (frame : ℤ) (tileId : TileId)
    (parent : LODState) (st : LODVisitorState) : LODState × LODVisitorState :=
  let nodeDEM :=
    match treeDEM with
    | some t => match t tileId with | some _ => some tileId | none => none
    | none => none
  let nodeIMG :=
    match treeIMG with
    | some t => match t tileId with | some _ => some tileId | none => none
    | none => none
  let rdStDEM :=
    match treeDEM, nodeDEM with
    | some _, some nid =>
      (some nid, {st with lastDEM := fun j => if j = nid then frame else st.lastDEM j})
    | _, _ => (parent.rdDEM, st)
  let rdStIMG :=
    match treeIMG, nodeIMG with
    | some _, some nid =>
      (some nid,
        {rdStDEM.2 with lastIMG := fun j => if j = nid then frame else rdStDEM.2.lastIMG j})
    | _, _ => (parent.rdIMG, rdStDEM.2)
  (⟨nodeDEM, nodeIMG, rdStDEM.1, rdStIMG.1⟩, rdStIMG.2)

/-- The recursive descent of TileVisitor (TileVisitor.hpp is not among the
given sources; modelled from the spec, sections 4.4 and 4.4.5): visiting a
node builds the level state, runs visitNode and, when it asks for
refinement, visits the four children with the current state as parent.  The
fuel argument bounds the recursion depth like the preallocated stack of
depth 32. -/
def visitLevel (treeDEM treeIMG : Option TileTree) (minLevel maxLevel frame : ℤ)
    (visible refineRatio10 : TileId → Bool) :
    ℕ → TileId → LODState → LODVisitorState → LODVisitorState
  | 0, _, _, st => st
  | fuel + 1, tileId, parent, st =>
    let sSt := mkState treeDEM treeIMG frame tileId parent st
    let dSt :=
      visitNode treeDEM treeIMG minLevel maxLevel frame visible refineRatio10 sSt.1 tileId sSt.2
    if dSt.1 then
      childIdxs.foldl
        (fun acc i =>
          visitLevel treeDEM treeIMG minLevel maxLevel frame visible refineRatio10 fuel
            (getChildTileId tileId i) sSt.1 acc)
        dSt.2
    else dSt.2

/-- The empty parent state used when visiting a root: preVisitRoot sets the
RenderData pointers to null when a channel is missing. -/
def emptyState : LODState :=
  ⟨none, none, none, none⟩

/-- TileVisitor::visit (modelled from the spec, section 4.4): run
preTraverse and, only if it reports all roots present, visit the twelve
roots in order. -/
noncomputable def visit (frustumFromMatrix : Mat4 → Frustum)
    (treeDEM treeIMG : Option TileTree) (minLevel maxLevel : ℤ)
    (visible refineRatio10 : TileId → Bool) (fuel : ℕ) (st : LODVisitorState) :
    LODVisitorState :=
  let pSt := preTraverse frustumFromMatrix treeDEM treeIMG st
  if pSt.2 then
    rootIdxs.foldl
      (fun acc i =>
        visitLevel treeDEM treeIMG minLevel maxLevel st.frameCount visible refineRatio10 fuel
          ⟨0, i⟩ emptyState acc)
      pSt.1
  else pSt.1

theorem foldl_preserve {α β : Type} (P : β → Prop) (f : β → α → β)
    (h : ∀ b a, P b → P (f b a)) : ∀ (L : List α) (b : β), P b → P (L.foldl f b) := by
  intro L
  induction L with
  | nil => intro b hb; exact hb
  | cons a L ih => intro b hb; exact ih (f b a) (h b a hb)

/-- The child ids a run of the loop of addLoadChildrenDEM / IMG pushes: the
children of id missing from the tree t, in loop order. -/
def missingChildren (t : TileTree) (id : TileId) : List TileId :=
  (childIdxs.filter fun i => t (getChildTileId id i) = none).map (getChildTileId id)

theorem loadFoldDEM_loadDEM (t : TileTree) (frame : ℤ) (id : TileId) :
    ∀ (L : List ℤ) (acc : LODVisitorState),
      (L.foldl (loadChildStepDEM t frame id) acc).loadDEM =
        acc.loadDEM ++ (L.filter fun i => t (getChildTileId id i) = none).map (getChildTileId id) := by
  intro L
  induction L with
  | nil => intro acc; simp
  | cons i L ih =>
    intro acc
    rcases h : t (getChildTileId id i) with _ | nd
    · simp [List.foldl_cons, loadChildStepDEM, h, ih, List.filter_cons]
    · simp [List.foldl_cons, loadChildStepDEM, h, ih, List.filter_cons]

theorem loadFoldDEM_frame (t : TileTree) (frame : ℤ) (id : TileId) :
    ∀ (L : List ℤ) (acc : LODVisitorState),
      (L.foldl (loadChildStepDEM t frame id) acc).loadIMG = acc.loadIMG ∧
        (L.foldl (loadChildStepDEM t frame id) acc).lastIMG = acc.lastIMG ∧
        (L.foldl (loadChildStepDEM t frame id) acc).renderDEM = acc.renderDEM ∧
        (L.foldl (loadChildStepDEM t frame id) acc).renderIMG = acc.renderIMG := by
  intro L
  induction L with
  | nil => intro acc; exact ⟨rfl, rfl, rfl, rfl⟩
  | cons i L ih =>
    intro acc
    rcases h : t (getChildTileId id i) with _ | nd
    · simpa [List.foldl_cons, loadChildStepDEM, h] using ih _
    · simpa [List.foldl_cons, loadChildStepDEM, h] using ih _

theorem loadFoldDEM_stamp (t : TileTree) (frame : ℤ) (id : TileId) :
    ∀ (L : List ℤ) (acc : LODVisitorState) (j : TileId),
      (acc.lastDEM j = frame ∨
        ∃ i ∈ L, j = getChildTileId id i ∧ (t (getChildTileId id i)).isSome) →
      (L.foldl (loadChildStepDEM t frame id) acc).lastDEM j = frame := by
  intro L
  induction L with
  | nil =>
    intro acc j hj
    rcases hj with hj | ⟨i, hi, _⟩
    · exact hj
    · simp at hi
  | cons i L ih =>
    intro acc j hj
    rcases h : t (getChildTileId id i) with _ | nd
    · simp only [List.foldl_cons, loadChildStepDEM, h]
      refine ih _ j ?_
      rcases hj with hj | ⟨i2, hi2, hji2, hsome⟩
      · exact Or.inl hj
      · rcases List.mem_cons.mp hi2 with rfl | hi2
        · rw [h] at hsome; simp at hsome
        · exact Or.inr ⟨i2, hi2, hji2, hsome⟩
    · simp only [List.foldl_cons, loadChildStepDEM, h]
      refine ih _ j ?_
      rcases hj with hj | ⟨i2, hi2, hji2, hsome⟩
      · left
        by_cases hji : j = getChildTileId id i
        · simp [hji]
        · simp [hji, hj]
      · rcases List.mem_cons.mp hi2 with rfl | hi2
        · left; simp [hji2]
        · exact Or.inr ⟨i2, hi2, hji2, hsome⟩

theorem loadFoldIMG_loadIMG (t : TileTree) (frame : ℤ) (id : TileId) :
    ∀ (L : List ℤ) (acc : LODVisitorState),
      (L.foldl (loadChildStepIMG t frame id) acc).loadIMG =
        acc.loadIMG ++ (L.filter fun i => t (getChildTileId id i) = none).map (getChildTileId id) := by
  intro L
  induction L with
  | nil => intro acc; simp
  | cons i L ih =>
    intro acc
    rcases h : t (getChildTileId id i) with _ | nd
    · simp [List.foldl_cons, loadChildStepIMG, h, ih, List.filter_cons]
    · simp [List.foldl_cons, loadChildStepIMG, h, ih, List.filter_cons]

theorem loadFoldIMG_frame (t : TileTree) (frame : ℤ) (id : TileId) :
    ∀ (L : List ℤ) (acc : LODVisitorState),
      (L.foldl (loadChildStepIMG t frame id) acc).loadDEM = acc.loadDEM ∧
        (L.foldl (loadChildStepIMG t frame id) acc).lastDEM = acc.lastDEM ∧
        (L.foldl (loadChildStepIMG t frame id) acc).renderDEM = acc.renderDEM ∧
        (L.foldl (loadChildStepIMG t frame id) acc).renderIMG = acc.renderIMG := by
  intro L
  induction L with
  | nil => intro acc; exact ⟨rfl, rfl, rfl, rfl⟩
  | cons i L ih =>
    intro acc
    rcases h : t (getChildTileId id i) with _ | nd
    · simpa [List.foldl_cons, loadChildStepIMG, h] using ih _
    · simpa [List.foldl_cons, loadChildStepIMG, h] using ih _

theorem loadFoldIMG_stamp (t : TileTree) (frame : ℤ) (id : TileId) :
    ∀ (L : List ℤ) (acc : LODVisitorState) (j : TileId),
      (acc.lastIMG j = frame ∨
        ∃ i ∈ L, j = getChildTileId id i ∧ (t (getChildTileId id i)).isSome) →
      (L.foldl (loadChildStepIMG t frame id) acc).lastIMG j = frame := by
  intro L
  induction L with
  | nil =>
    intro acc j hj
    rcases hj with hj | ⟨i, hi, _⟩
    · exact hj
    · simp at hi
  | cons i L ih =>
    intro acc j hj
    rcases h : t (getChildTileId id i) with _ | nd
    · simp only [List.foldl_cons, loadChildStepIMG, h]
      refine ih _ j ?_
      rcases hj with hj | ⟨i2, hi2, hji2, hsome⟩
      · exact Or.inl hj
      · rcases List.mem_cons.mp hi2 with rfl | hi2
        · rw [h] at hsome; simp at hsome
        · exact Or.inr ⟨i2, hi2, hji2, hsome⟩
    · simp only [List.foldl_cons, loadChildStepIMG, h]
      refine ih _ j ?_
      rcases hj with hj | ⟨i2, hi2, hji2, hsome⟩
      · left
        by_cases hji : j = getChildTileId id i
        · simp [hji]
        · simp [hji, hj]
      · rcases List.mem_cons.mp hi2 with rfl | hi2
        · left; simp [hji2]
        · exact Or.inr ⟨i2, hi2, hji2, hsome⟩

theorem addLoadChildrenDEM_frame (t : TileTree) (maxLevel frame : ℤ)
    (node : Option TileId) (st : LODVisitorState) :
    (addLoadChildrenDEM t maxLevel frame node st).loadIMG = st.loadIMG ∧
      (addLoadChildrenDEM t maxLevel frame node st).lastIMG = st.lastIMG ∧
      (addLoadChildrenDEM t maxLevel frame node st).renderDEM = st.renderDEM ∧
      (addLoadChildrenDEM t maxLevel frame node st).renderIMG = st.renderIMG := by
  rcases node with _ | id
  · exact ⟨rfl, rfl, rfl, rfl⟩
  · unfold addLoadChildrenDEM
    by_cases hl : id.level < maxLevel
    · simpa [hl] using loadFoldDEM_frame t frame id childIdxs st
    · simp [hl]

theorem addLoadChildrenIMG_frame (t : TileTree) (maxLevel frame : ℤ)
    (node : Option TileId) (st : LODVisitorState) :
    (addLoadChildrenIMG t maxLevel frame node st).loadDEM = st.loadDEM ∧
      (addLoadChildrenIMG t maxLevel frame node st).lastDEM = st.lastDEM ∧
      (addLoadChildrenIMG t maxLevel frame node st).renderDEM = st.renderDEM ∧
      (addLoadChildrenIMG t maxLevel frame node st).renderIMG = st.renderIMG := by
  rcases node with _ | id
  · exact ⟨rfl, rfl, rfl, rfl⟩
  · unfold addLoadChildrenIMG
    by_cases hl : id.level < maxLevel
    · simpa [hl] using loadFoldIMG_frame t frame id childIdxs st
    · simp [hl]

theorem addLoadChildrenDEM_loadDEM (t : TileTree) (maxLevel frame : ℤ) (id : TileId)
    (st : LODVisitorState) :
    (addLoadChildrenDEM t maxLevel frame (some id) st).loadDEM =
      (if id.level < maxLevel then st.loadDEM ++ missingChildren t id else st.loadDEM) := by
  unfold addLoadChildrenDEM missingChildren
  by_cases hl : id.level < maxLevel
  · simpa [hl] using loadFoldDEM_loadDEM t frame id childIdxs st
  · simp [hl]

theorem addLoadChildrenIMG_loadIMG (t : TileTree) (maxLevel frame : ℤ) (id : TileId)
    (st : LODVisitorState) :
    (addLoadChildrenIMG t maxLevel frame (some id) st).loadIMG =
      (if id.level < maxLevel then st.loadIMG ++ missingChildren t id else st.loadIMG) := by
  unfold addLoadChildrenIMG missingChildren
  by_cases hl : id.level < maxLevel
  · simpa [hl] using loadFoldIMG_loadIMG t frame id childIdxs st
  · simp [hl]

theorem mem_missingChildren (t : TileTree) (id cid : TileId) :
    cid ∈ missingChildren t id → t cid = none ∧ cid.level = id.level + 1 := by
  intro h
  unfold missingChildren at h
  rcases List.mem_map.mp h with ⟨i, hi, rfl⟩
  rcases List.mem_filter.mp hi with ⟨_, hnone⟩
  refine ⟨by simpa using hnone, rfl⟩

theorem addLoadChildrenDEM_stamp (t : TileTree) (maxLevel frame : ℤ) (id : TileId)
    (st : LODVisitorState) (hl : id.level < maxLevel) (i : ℤ) (hi : i ∈ childIdxs)
    (hp : (t (getChildTileId id i)).isSome = true) :
    (addLoadChildrenDEM t maxLevel frame (some id) st).lastDEM (getChildTileId id i) = frame := by
  show (if id.level < maxLevel then List.foldl (loadChildStepDEM t frame id) st childIdxs
    else st).lastDEM (getChildTileId id i) = frame
  rw [if_pos hl]
  exact loadFoldDEM_stamp t frame id childIdxs st _ (Or.inr ⟨i, hi, rfl, hp⟩)

theorem addLoadChildrenIMG_stamp (t : TileTree) (maxLevel frame : ℤ) (id : TileId)
    (st : LODVisitorState) (hl : id.level < maxLevel) (i : ℤ) (hi : i ∈ childIdxs)
    (hp : (t (getChildTileId id i)).isSome = true) :
    (addLoadChildrenIMG t maxLevel frame (some id) st).lastIMG (getChildTileId id i) = frame := by
  show (if id.level < maxLevel then List.foldl (loadChildStepIMG t frame id) st childIdxs
    else st).lastIMG (getChildTileId id i) = frame
  rw [if_pos hl]
  exact loadFoldIMG_stamp t frame id childIdxs st _ (Or.inr ⟨i, hi, rfl, hp⟩)

theorem drawLevel_fields (treeDEM treeIMG : Option TileTree) (s : LODState)
    (st : LODVisitorState) :
    (drawLevel treeDEM treeIMG s st).loadDEM = st.loadDEM ∧
      (drawLevel treeDEM treeIMG s st).loadIMG = st.loadIMG ∧
      (drawLevel treeDEM treeIMG s st).lastDEM = st.lastDEM ∧
      (drawLevel treeDEM treeIMG s st).lastIMG = st.lastIMG ∧
      (drawLevel treeDEM treeIMG s st).renderDEM =
        (match treeDEM with
          | some _ => st.renderDEM ++ [s.rdDEM]
          | none => st.renderDEM) ∧
      (drawLevel treeDEM treeIMG s st).renderIMG =
        (match treeIMG with
          | some _ => st.renderIMG ++ [s.rdIMG]
          | none => st.renderIMG) := by
  rcases treeDEM with _ | tD <;> rcases treeIMG with _ | tI <;>
    simp [drawLevel]

theorem mkState_fields (treeDEM treeIMG : Option TileTree) (frame : ℤ) (tileId : TileId)
    (parent : LODState) (st : LODVisitorState) :
    (mkState treeDEM treeIMG frame tileId parent st).2.loadDEM = st.loadDEM ∧
      (mkState treeDEM treeIMG frame tileId parent st).2.loadIMG = st.loadIMG ∧
      (mkState treeDEM treeIMG frame tileId parent st).2.renderDEM = st.renderDEM ∧
      (mkState treeDEM treeIMG frame tileId parent st).2.renderIMG = st.renderIMG := by
  unfold mkState
  rcases treeDEM with _ | tD
  · rcases treeIMG with _ | tI
    · simp
    · rcases hI : tI tileId with _ | ndI <;> simp [hI]
  · rcases treeIMG with _ | tI
    · rcases hD : tD tileId with _ | ndD <;> simp [hD]
    · rcases hD : tD tileId with _ | ndD <;> rcases hI : tI tileId with _ | ndI <;>
        simp [hD, hI]

theorem mkState_rdOK (treeDEM treeIMG : Option TileTree) (frame : ℤ) (tileId : TileId)
    (parent : LODState) (st : LODVisitorState)
    (h : ∀ t, treeDEM = some t →
      (t tileId).isSome = true ∨ ∃ pid, parent.rdDEM = some pid ∧ (t pid).isSome = true) :
    ∀ t, treeDEM = some t →
      ∃ id, (mkState treeDEM treeIMG frame tileId parent st).1.rdDEM = some id ∧
        (t id).isSome = true := by
  intro t ht
  subst ht
  unfold mkState
  rcases hD : t tileId with _ | ndD
  · rcases h t rfl with hp | ⟨pid, hpid, hpids⟩
    · rw [hD] at hp; simp at hp
    · rcases treeIMG with _ | tI <;>
        simp [hD, hpid, hpids]
  · rcases treeIMG with _ | tI <;>
      simp [hD]

/-- Invariant of a load list: every entry names a node absent from the tree
and has level at most maxLevel. -/
def LoadInv (t : TileTree) (maxLevel : ℤ) (l : List TileId) : Prop :=
  ∀ id ∈ l, t id = none ∧ id.level ≤ maxLevel

/-- Invariant of the DEM render list: every entry is a non null RenderData
pointer of a node present in the tree. -/
def RenderInv (t : TileTree) (l : List (Option TileId)) : Prop :=
  ∀ x ∈ l, ∃ id, x = some id ∧ (t id).isSome = true

/-- The DEM RenderData pointer of a traversal state is non null and belongs
to a node of the attached DEM tree. -/
def rdOK (treeDEM : Option TileTree) (s : LODState) : Prop :=
  ∀ t, treeDEM = some t → ∃ id, s.rdDEM = some id ∧ (t id).isSome = true

/-- The traversal invariant: both load lists are fresh and level bounded and
the DEM render list refers to resident nodes. -/
def TravInv (treeDEM treeIMG : Option TileTree) (maxLevel : ℤ)
    (st : LODVisitorState) : Prop :=
  (∀ t, treeDEM = some t → LoadInv t maxLevel st.loadDEM) ∧
    (∀ t, treeIMG = some t → LoadInv t maxLevel st.loadIMG) ∧
    (∀ t, treeDEM = some t → RenderInv t st.renderDEM)

theorem LoadInv_append_missing (t : TileTree) (maxLevel : ℤ) (id : TileId)
    (l : List TileId) (hl : id.level < maxLevel) (h : LoadInv t maxLevel l) :
    LoadInv t maxLevel (l ++ missingChildren t id) := by
  intro x hx
  rcases List.mem_append.mp hx with hx | hx
  · exact h x hx
  · rcases mem_missingChildren t id x hx with ⟨hnone, hlev⟩
    exact ⟨hnone, by omega⟩

theorem addLoadChildrenDEM_LoadInv (t : TileTree) (maxLevel frame : ℤ)
    (node : Option TileId) (st : LODVisitorState) (h : LoadInv t maxLevel st.loadDEM) :
    LoadInv t maxLevel (addLoadChildrenDEM t maxLevel frame node st).loadDEM := by
  rcases node with _ | id
  · exact h
  · rw [addLoadChildrenDEM_loadDEM]
    by_cases hl : id.level < maxLevel
    · rw [if_pos hl]; exact LoadInv_append_missing t maxLevel id _ hl h
    · rw [if_neg hl]; exact h

theorem addLoadChildrenIMG_LoadInv (t : TileTree) (maxLevel frame : ℤ)
    (node : Option TileId) (st : LODVisitorState) (h : LoadInv t maxLevel st.loadIMG) :
    LoadInv t maxLevel (addLoadChildrenIMG t maxLevel frame node st).loadIMG := by
  rcases node with _ | id
  · exact h
  · rw [addLoadChildrenIMG_loadIMG]
    by_cases hl : id.level < maxLevel
    · rw [if_pos hl]; exact LoadInv_append_missing t maxLevel id _ hl h
    · rw [if_neg hl]; exact h

theorem TravInv_addDEM (tD : TileTree) (treeIMG : Option TileTree) (maxLevel frame : ℤ)
    (node : Option TileId) (st : LODVisitorState)
    (h : TravInv (some tD) treeIMG maxLevel st) :
    TravInv (some tD) treeIMG maxLevel (addLoadChildrenDEM tD maxLevel frame node st) := by
  obtain ⟨hld, hli, hrd⟩ := h
  obtain ⟨hf1, hf2, hf3, hf4⟩ := addLoadChildrenDEM_frame tD maxLevel frame node st
  refine ⟨?_, ?_, ?_⟩
  · intro t ht
    injection ht with hEq
    subst hEq
    exact addLoadChildrenDEM_LoadInv tD maxLevel frame node st (hld tD rfl)
  · intro t ht; rw [hf1]; exact hli t ht
  · intro t ht; rw [hf3]; exact hrd t ht

theorem TravInv_addIMG (treeDEM : Option TileTree) (tI : TileTree) (maxLevel frame : ℤ)
    (node : Option TileId) (st : LODVisitorState)
    (h : TravInv treeDEM (some tI) maxLevel st) :
    TravInv treeDEM (some tI) maxLevel (addLoadChildrenIMG tI maxLevel frame node st) := by
  obtain ⟨hld, hli, hrd⟩ := h
  obtain ⟨hf1, hf2, hf3, hf4⟩ := addLoadChildrenIMG_frame tI maxLevel frame node st
  refine ⟨?_, ?_, ?_⟩
  · intro t ht; rw [hf1]; exact hld t ht
  · intro t ht
    injection ht with hEq
    subst hEq
    exact addLoadChildrenIMG_LoadInv tI maxLevel frame node st (hli tI rfl)
  · intro t ht; rw [hf3]; exact hrd t ht

theorem TravInv_drawLevel (treeDEM treeIMG : Option TileTree) (maxLevel : ℤ)
    (s : LODState) (st : LODVisitorState) (hs : rdOK treeDEM s)
    (h : TravInv treeDEM treeIMG maxLevel st) :
    TravInv treeDEM treeIMG maxLevel (drawLevel treeDEM treeIMG s st) := by
  obtain ⟨hld, hli, hrd⟩ := h
  obtain ⟨hf1, hf2, hf3, hf4, hf5, hf6⟩ := drawLevel_fields treeDEM treeIMG s st
  refine ⟨?_, ?_, ?_⟩
  · intro t ht; rw [hf1]; exact hld t ht
  · intro t ht; rw [hf2]; exact hli t ht
  · intro t ht
    rw [hf5]
    subst ht
    intro x hx
    rcases List.mem_append.mp hx with hx | hx
    · exact hrd t rfl x hx
    · rcases hs t rfl with ⟨id, hid, hids⟩
      simp only [List.mem_singleton] at hx
      exact ⟨id, hx ▸ hid, hids⟩

theorem handleRefine_TravInv (treeDEM treeIMG : Option TileTree) (maxLevel frame : ℤ)
    (s : LODState) (st : LODVisitorState) (hs : rdOK treeDEM s)
    (h : TravInv treeDEM treeIMG maxLevel st) :
    TravInv treeDEM treeIMG maxLevel (handleRefine treeDEM treeIMG maxLevel frame s st).2 := by
  rcases treeDEM with _ | tD
  · exact h
  · rcases treeIMG with _ | tI
    · simp only [handleRefine]
      split_ifs
      · exact h
      · exact TravInv_drawLevel _ _ _ _ _ hs (TravInv_addDEM tD none maxLevel frame s.nodeDEM st h)
    · simp only [handleRefine]
      split_ifs <;>
        first
        | exact h
        | exact TravInv_addDEM tD (some tI) maxLevel frame s.nodeDEM st h
        | exact TravInv_addIMG (some tD) tI maxLevel frame s.nodeIMG st h
        | exact TravInv_addIMG (some tD) tI maxLevel frame s.nodeIMG _
            (TravInv_addDEM tD (some tI) maxLevel frame s.nodeDEM st h)
        | exact TravInv_drawLevel _ _ _ _ _ hs h
        | exact TravInv_drawLevel _ _ _ _ _ hs
            (TravInv_addDEM tD (some tI) maxLevel frame s.nodeDEM st h)
        | exact TravInv_drawLevel _ _ _ _ _ hs
            (TravInv_addIMG (some tD) tI maxLevel frame s.nodeIMG st h)
        | exact TravInv_drawLevel _ _ _ _ _ hs
            (TravInv_addIMG (some tD) tI maxLevel frame s.nodeIMG _
              (TravInv_addDEM tD (some tI) maxLevel frame s.nodeDEM st h))

theorem visitNode_TravInv (treeDEM treeIMG : Option TileTree)
    (minLevel maxLevel frame : ℤ) (vis ref : TileId → Bool) (s : LODState)
    (tileId : TileId) (st : LODVisitorState) (hs : rdOK treeDEM s)
    (h : TravInv treeDEM treeIMG maxLevel st) :
    TravInv treeDEM treeIMG maxLevel
      (visitNode treeDEM treeIMG minLevel maxLevel frame vis ref s tileId st).2 := by
  unfold visitNode
  split_ifs
  · split
    · exact TravInv_drawLevel _ _ _ _ _ hs h
    · by_cases hc : (decide (minLevel > tileId.level) || ref tileId) = true
      · simp only [hc, if_true]
        exact handleRefine_TravInv treeDEM treeIMG maxLevel frame s st hs h
      · simp only [hc, if_false]
        exact TravInv_drawLevel _ _ _ _ _ hs h
  · exact h

theorem TravInv_mkState (treeDEM treeIMG : Option TileTree) (maxLevel frame : ℤ)
    (tileId : TileId) (parent : LODState) (st : LODVisitorState)
    (h : TravInv treeDEM treeIMG maxLevel st) :
    TravInv treeDEM treeIMG maxLevel (mkState treeDEM treeIMG frame tileId parent st).2 := by
  obtain ⟨hld, hli, hrd⟩ := h
  obtain ⟨hf1, hf2, hf3, hf4⟩ := mkState_fields treeDEM treeIMG frame tileId parent st
  refine ⟨?_, ?_, ?_⟩
  · intro t ht; rw [hf1]; exact hld t ht
  · intro t ht; rw [hf2]; exact hli t ht
  · intro t ht; rw [hf3]; exact hrd t ht

theorem visitLevel_TravInv (treeDEM treeIMG : Option TileTree)
    (minLevel maxLevel frame : ℤ) (vis ref : TileId → Bool) :
    ∀ (fuel : ℕ) (tileId : TileId) (parent : LODState) (st : LODVisitorState),
      (∀ t, treeDEM = some t →
        (t tileId).isSome = true ∨ ∃ pid, parent.rdDEM = some pid ∧ (t pid).isSome = true) →
      TravInv treeDEM treeIMG maxLevel st →
      TravInv treeDEM treeIMG maxLevel
        (visitLevel treeDEM treeIMG minLevel maxLevel frame vis ref fuel tileId parent st) := by
  intro fuel
  induction fuel with
  | zero => intro tileId parent st _ h; exact h
  | succ fuel ih =>
    intro tileId parent st hpar h
    simp only [visitLevel]
    have hrd : rdOK treeDEM (mkState treeDEM treeIMG frame tileId parent st).1 :=
      mkState_rdOK treeDEM treeIMG frame tileId parent st hpar
    have h1 : TravInv treeDEM treeIMG maxLevel
        (mkState treeDEM treeIMG frame tileId parent st).2 :=
      TravInv_mkState treeDEM treeIMG maxLevel frame tileId parent st h
    have h2 : TravInv treeDEM treeIMG maxLevel
        (visitNode treeDEM treeIMG minLevel maxLevel frame vis ref
          (mkState treeDEM treeIMG frame tileId parent st).1 tileId
          (mkState treeDEM treeIMG frame tileId parent st).2).2 :=
      visitNode_TravInv treeDEM treeIMG minLevel maxLevel frame vis ref _ tileId _ hrd h1
    split
    · refine foldl_preserve (TravInv treeDEM treeIMG maxLevel) _ ?_ childIdxs _ h2
      intro acc i hacc
      refine ih (getChildTileId tileId i) _ acc ?_ hacc
      intro t ht
      rcases hrd t ht with ⟨pid, hpid, hpids⟩
      exact Or.inr ⟨pid, hpid, hpids⟩
    · exact h2

theorem rootStep_frame (tD tI : Option TileTree) (acc : LODVisitorState × Bool) (i : ℤ) :
    (rootStep tD tI acc i).1.renderDEM = acc.1.renderDEM ∧
      (rootStep tD tI acc i).1.renderIMG = acc.1.renderIMG ∧
      (rootStep tD tI acc i).1.lastDEM = acc.1.lastDEM ∧
      (rootStep tD tI acc i).1.lastIMG = acc.1.lastIMG ∧
      (rootStep tD tI acc i).1.lodData = acc.1.lodData ∧
      (rootStep tD tI acc i).1.cullData = acc.1.cullData := by
  unfold rootStep
  rcases tD with _ | t1
  · rcases tI with _ | t2
    · exact ⟨rfl, rfl, rfl, rfl, rfl, rfl⟩
    · rcases h2 : t2 ⟨0, i⟩ with _ | nd <;> simp [h2]
  · rcases h1 : t1 ⟨0, i⟩ with _ | nd
    · rcases tI with _ | t2
      · simp [h1]
      · rcases h2 : t2 ⟨0, i⟩ with _ | nd2 <;> simp [h1, h2]
    · rcases tI with _ | t2
      · simp [h1]
      · rcases h2 : t2 ⟨0, i⟩ with _ | nd2 <;> simp [h1, h2]

theorem rootStep_TravInv (tD tI : Option TileTree) (maxLevel : ℤ)
    (acc : LODVisitorState × Bool) (i : ℤ) (hmax : 0 ≤ maxLevel)
    (h : TravInv tD tI maxLevel acc.1) :
    TravInv tD tI maxLevel (rootStep tD tI acc i).1 := by
  obtain ⟨hld, hli, hrd⟩ := h
  unfold rootStep
  rcases tD with _ | t1
  · rcases tI with _ | t2
    · exact ⟨hld, hli, hrd⟩
    · rcases h2 : t2 ⟨0, i⟩ with _ | nd
      · refine ⟨?_, ?_, ?_⟩ <;> intro t ht <;> simp [h2] <;>
          [skip; skip; skip]
        · exact fun id hid => hld t ht id hid
        · injection ht with hEq
          subst hEq
          intro id hid
          rcases List.mem_append.mp hid with hid | hid
          · exact hli t2 rfl id hid
          · simp only [List.mem_singleton] at hid
            subst hid
            exact ⟨h2, hmax⟩
        · exact fun x hx => hrd t ht x hx
      · exact ⟨by simpa [h2] using hld, by simpa [h2] using hli, by simpa [h2] using hrd⟩
  · rcases h1 : t1 ⟨0, i⟩ with _ | nd
    · rcases tI with _ | t2
      · refine ⟨?_, ?_, ?_⟩
        · intro t ht
          injection ht with hEq
          subst hEq
          simp only [h1]
          intro id hid
          rcases List.mem_append.mp hid with hid | hid
          · exact hld t1 rfl id hid
          · simp only [List.mem_singleton] at hid
            subst hid
            exact ⟨h1, hmax⟩
        · intro t ht; simp [h1]; exact fun id hid => hli t ht id hid
        · intro t ht; simp [h1]; exact fun x hx => hrd t ht x hx
      · rcases h2 : t2 ⟨0, i⟩ with _ | nd2
        · refine ⟨?_, ?_, ?_⟩
          · intro t ht
            injection ht with hEq
            subst hEq
            simp only [h1, h2]
            intro id hid
            rcases List.mem_append.mp hid with hid | hid
            · exact hld t1 rfl id hid
            · simp only [List.mem_singleton] at hid
              subst hid
              exact ⟨h1, hmax⟩
          · intro t ht
            injection ht with hEq
            subst hEq
            simp only [h1, h2]
            intro id hid
            rcases List.mem_append.mp hid with hid | hid
            · exact hli t2 rfl id hid
            · simp only [List.mem_singleton] at hid
              subst hid
              exact ⟨h2, hmax⟩
          · intro t ht; simp [h1, h2]; exact fun x hx => hrd t ht x hx
        · refine ⟨?_, ?_, ?_⟩
          · intro t ht
            injection ht with hEq
            subst hEq
            simp only [h1, h2]
            intro id hid
            rcases List.mem_append.mp hid with hid | hid
            · exact hld t1 rfl id hid
            · simp only [List.mem_singleton] at hid
              subst hid
              exact ⟨h1, hmax⟩
          · intro t ht; simp [h1, h2]; exact fun id hid => hli t ht id hid
          · intro t ht; simp [h1, h2]; exact fun x hx => hrd t ht x hx
    · rcases tI with _ | t2
      · exact ⟨by simpa [h1] using hld, by simpa [h1] using hli, by simpa [h1] using hrd⟩
      · rcases h2 : t2 ⟨0, i⟩ with _ | nd2
        · refine ⟨?_, ?_, ?_⟩
          · intro t ht; simp [h1, h2]; exact fun id hid => hld t ht id hid
          · intro t ht
            injection ht with hEq
            subst hEq
            simp only [h1, h2]
            intro id hid
            rcases List.mem_append.mp hid with hid | hid
            · exact hli t2 rfl id hid
            · simp only [List.mem_singleton] at hid
              subst hid
              exact ⟨h2, hmax⟩
          · intro t ht; simp [h1, h2]; exact fun x hx => hrd t ht x hx
        · exact ⟨by simpa [h1, h2] using hld, by simpa [h1, h2] using hli,
            by simpa [h1, h2] using hrd⟩

theorem rootStep_true (tD tI : Option TileTree) (acc : LODVisitorState × Bool) (i : ℤ)
    (h : (rootStep tD tI acc i).2 = true) :
    acc.2 = true ∧ (∀ t, tD = some t → (t ⟨0, i⟩).isSome = true) ∧
      (∀ t, tI = some t → (t ⟨0, i⟩).isSome = true) := by
  rcases tD with _ | t1
  · rcases tI with _ | t2
    · exact ⟨h, by simp, by simp⟩
    · rcases h2 : t2 ⟨0, i⟩ with _ | nd
      · simp [rootStep, h2] at h
      · simp only [rootStep, h2] at h
        refine ⟨h, by simp, ?_⟩
        intro t ht
        injection ht with hEq
        subst hEq
        simp [h2]
  · rcases h1 : t1 ⟨0, i⟩ with _ | nd
    · rcases tI with _ | t2
      · simp [rootStep, h1] at h
      · rcases h2 : t2 ⟨0, i⟩ with _ | nd2
        · simp [rootStep, h1, h2] at h
        · simp [rootStep, h1, h2] at h
    · rcases tI with _ | t2
      · simp only [rootStep, h1] at h
        refine ⟨h, ?_, by simp⟩
        intro t ht
        injection ht with hEq
        subst hEq
        simp [h1]
      · rcases h2 : t2 ⟨0, i⟩ with _ | nd2
        · simp [rootStep, h1, h2] at h
        · simp only [rootStep, h1, h2] at h
          refine ⟨h, ?_, ?_⟩
          · intro t ht
            injection ht with hEq
            subst hEq
            simp [h1]
          · intro t ht
            injection ht with hEq
            subst hEq
            simp [h2]

theorem rootStep_mono (tD tI : Option TileTree) (acc : LODVisitorState × Bool) (i : ℤ)
    (x : TileId) :
    (x ∈ acc.1.loadDEM → x ∈ (rootStep tD tI acc i).1.loadDEM) ∧
      (x ∈ acc.1.loadIMG → x ∈ (rootStep tD tI acc i).1.loadIMG) := by
  rcases tD with _ | t1
  · rcases tI with _ | t2
    · exact ⟨id, id⟩
    · rcases h2 : t2 ⟨0, i⟩ with _ | nd <;> simp [rootStep, h2] <;> tauto
  · rcases h1 : t1 ⟨0, i⟩ with _ | nd
    · rcases tI with _ | t2
      · simp [rootStep, h1] <;> tauto
      · rcases h2 : t2 ⟨0, i⟩ with _ | nd2 <;> simp [rootStep, h1, h2] <;> tauto
    · rcases tI with _ | t2
      · simp [rootStep, h1] <;> tauto
      · rcases h2 : t2 ⟨0, i⟩ with _ | nd2 <;> simp [rootStep, h1, h2] <;> tauto

theorem rootStep_false (tD tI : Option TileTree) (acc : LODVisitorState × Bool) (i : ℤ)
    (h : acc.2 = false) : (rootStep tD tI acc i).2 = false := by
  unfold rootStep
  rcases tD with _ | t1
  · rcases tI with _ | t2
    · exact h
    · rcases h2 : t2 ⟨0, i⟩ with _ | nd <;> simp [h2, h]
  · rcases h1 : t1 ⟨0, i⟩ with _ | nd
    · rcases tI with _ | t2
      · simp [h1]
      · rcases h2 : t2 ⟨0, i⟩ with _ | nd2 <;> simp [h1, h2]
    · rcases tI with _ | t2
      · simp [h1, h]
      · rcases h2 : t2 ⟨0, i⟩ with _ | nd2 <;> simp [h1, h2, h]

theorem rootStep_missingDEM (tD tI : Option TileTree) (acc : LODVisitorState × Bool)
    (i : ℤ) (t : TileTree) (ht : tD = some t) (hm : t ⟨0, i⟩ = none) :
    TileId.mk 0 i ∈ (rootStep tD tI acc i).1.loadDEM ∧ (rootStep tD tI acc i).2 = false := by
  subst ht
  unfold rootStep
  rcases tI with _ | t2
  · simp [hm]
  · rcases h2 : t2 ⟨0, i⟩ with _ | nd2 <;> simp [hm, h2]

theorem rootStep_missingIMG (tD tI : Option TileTree) (acc : LODVisitorState × Bool)
    (i : ℤ) (t : TileTree) (ht : tI = some t) (hm : t ⟨0, i⟩ = none) :
    TileId.mk 0 i ∈ (rootStep tD tI acc i).1.loadIMG ∧ (rootStep tD tI acc i).2 = false := by
  subst ht
  unfold rootStep
  rcases tD with _ | t1
  · simp [hm]
  · rcases h1 : t1 ⟨0, i⟩ with _ | nd1 <;> simp [hm, h1]

theorem rootFold_frame (tD tI : Option TileTree) :
    ∀ (L : List ℤ) (acc : LODVisitorState × Bool),
      (L.foldl (rootStep tD tI) acc).1.renderDEM = acc.1.renderDEM ∧
        (L.foldl (rootStep tD tI) acc).1.renderIMG = acc.1.renderIMG ∧
        (L.foldl (rootStep tD tI) acc).1.lodData = acc.1.lodData ∧
        (L.foldl (rootStep tD tI) acc).1.cullData = acc.1.cullData := by
  intro L
  induction L with
  | nil => intro acc; exact ⟨rfl, rfl, rfl, rfl⟩
  | cons i L ih =>
    intro acc
    obtain ⟨s1, s2, _, _, s5, s6⟩ := rootStep_frame tD tI acc i
    obtain ⟨f1, f2, f3, f4⟩ := ih (rootStep tD tI acc i)
    exact ⟨by rw [List.foldl_cons, f1, s1], by rw [List.foldl_cons, f2, s2],
      by rw [List.foldl_cons, f3, s5], by rw [List.foldl_cons, f4, s6]⟩

theorem rootFold_true (tD tI : Option TileTree) :
    ∀ (L : List ℤ) (acc : LODVisitorState × Bool),
      (L.foldl (rootStep tD tI) acc).2 = true →
        acc.2 = true ∧ ∀ i ∈ L, (∀ t, tD = some t → (t ⟨0, i⟩).isSome = true) ∧
          (∀ t, tI = some t → (t ⟨0, i⟩).isSome = true) := by
  intro L
  induction L with
  | nil => intro acc h; exact ⟨h, by simp⟩
  | cons i L ih =>
    intro acc h
    rw [List.foldl_cons] at h
    obtain ⟨hstep, hall⟩ := ih (rootStep tD tI acc i) h
    obtain ⟨hacc, hD, hI⟩ := rootStep_true tD tI acc i hstep
    refine ⟨hacc, ?_⟩
    intro i2 hi2
    rcases List.mem_cons.mp hi2 with rfl | hi2
    · exact ⟨hD, hI⟩
    · exact hall i2 hi2

theorem rootFold_mono (tD tI : Option TileTree) :
    ∀ (L : List ℤ) (acc : LODVisitorState × Bool) (x : TileId),
      (x ∈ acc.1.loadDEM → x ∈ (L.foldl (rootStep tD tI) acc).1.loadDEM) ∧
        (x ∈ acc.1.loadIMG → x ∈ (L.foldl (rootStep tD tI) acc).1.loadIMG) := by
  intro L
  induction L with
  | nil => intro acc x; exact ⟨id, id⟩
  | cons i L ih =>
    intro acc x
    obtain ⟨s1, s2⟩ := rootStep_mono tD tI acc i x
    obtain ⟨f1, f2⟩ := ih (rootStep tD tI acc i) x
    exact ⟨fun hx => by rw [List.foldl_cons]; exact f1 (s1 hx),
      fun hx => by rw [List.foldl_cons]; exact f2 (s2 hx)⟩

theorem rootFold_false (tD tI : Option TileTree) :
    ∀ (L : List ℤ) (acc : LODVisitorState × Bool),
      acc.2 = false → (L.foldl (rootStep tD tI) acc).2 = false := by
  intro L
  induction L with
  | nil => intro acc h; exact h
  | cons i L ih =>
    intro acc h
    rw [List.foldl_cons]
    exact ih _ (rootStep_false tD tI acc i h)

theorem rootFold_missingDEM (tD tI : Option TileTree) (t : TileTree) (ht : tD = some t) :
    ∀ (L : List ℤ) (acc : LODVisitorState × Bool) (i : ℤ), i ∈ L → t ⟨0, i⟩ = none →
      TileId.mk 0 i ∈ (L.foldl (rootStep tD tI) acc).1.loadDEM ∧
        (L.foldl (rootStep tD tI) acc).2 = false := by
  intro L
  induction L with
  | nil => intro acc i hi; simp at hi
  | cons i2 L ih =>
    intro acc i hi hm
    rcases List.mem_cons.mp hi with rfl | hi
    · obtain ⟨hmem, hfalse⟩ := rootStep_missingDEM tD tI acc i t ht hm
      rw [List.foldl_cons]
      exact ⟨(rootFold_mono tD tI L _ _).1 hmem, rootFold_false tD tI L _ hfalse⟩
    · rw [List.foldl_cons]
      exact ih _ i hi hm

theorem rootFold_missingIMG (tD tI : Option TileTree) (t : TileTree) (ht : tI = some t) :
    ∀ (L : List ℤ) (acc : LODVisitorState × Bool) (i : ℤ), i ∈ L → t ⟨0, i⟩ = none →
      TileId.mk 0 i ∈ (L.foldl (rootStep tD tI) acc).1.loadIMG ∧
        (L.foldl (rootStep tD tI) acc).2 = false := by
  intro L
  induction L with
  | nil => intro acc i hi; simp at hi
  | cons i2 L ih =>
    intro acc i hi hm
    rcases List.mem_cons.mp hi with rfl | hi
    · obtain ⟨hmem, hfalse⟩ := rootStep_missingIMG tD tI acc i t ht hm
      rw [List.foldl_cons]
      exact ⟨(rootFold_mono tD tI L _ _).2 hmem, rootFold_false tD tI L _ hfalse⟩
    · rw [List.foldl_cons]
      exact ih _ i hi hm

theorem rootFold_allMissing (tD tI : TileTree) (hD : ∀ id, tD id = none)
    (hI : ∀ id, tI id = none) :
    ∀ (L : List ℤ) (acc : LODVisitorState × Bool),
      (L.foldl (rootStep (some tD) (some tI)) acc).1.loadDEM =
          acc.1.loadDEM ++ L.map (fun i => TileId.mk 0 i) ∧
        (L.foldl (rootStep (some tD) (some tI)) acc).1.loadIMG =
          acc.1.loadIMG ++ L.map (fun i => TileId.mk 0 i) := by
  intro L
  induction L with
  | nil => intro acc; simp
  | cons i L ih =>
    intro acc
    rw [List.foldl_cons]
    obtain ⟨f1, f2⟩ := ih (rootStep (some tD) (some tI) acc i)
    rw [f1, f2]
    constructor <;> simp [rootStep, hD, hI]

theorem foldl_preserve_mem {α β : Type} (P : β → Prop) (f : β → α → β) :
    ∀ (L : List α), (∀ b a, a ∈ L → P b → P (f b a)) → ∀ b, P b → P (L.foldl f b) := by
  intro L
  induction L with
  | nil => intro _ b hb; exact hb
  | cons a L ih =>
    intro h b hb
    exact ih (fun b2 a2 ha2 => h b2 a2 (List.mem_cons_of_mem a ha2)) (f b a)
      (h b a (List.mem_cons_self a L) hb)

theorem preTraverse_TravInv (ffm : Mat4 → Frustum) (tD tI : Option TileTree)
    (maxLevel : ℤ) (st : LODVisitorState) (hmax : 0 ≤ maxLevel) :
    TravInv tD tI maxLevel (preTraverse ffm tD tI st).1 := by
  unfold preTraverse
  refine foldl_preserve (fun acc => TravInv tD tI maxLevel acc.1) _
    (fun acc i hacc => rootStep_TravInv tD tI maxLevel acc i hmax hacc) rootIdxs _ ?_
  refine ⟨?_, ?_, ?_⟩ <;> intro t ht <;> intro x hx <;> simp at hx

theorem preTraverse_true (ffm : Mat4 → Frustum) (tD tI : Option TileTree)
    (st : LODVisitorState) (h : (preTraverse ffm tD tI st).2 = true) :
    ∀ i ∈ rootIdxs, (∀ t, tD = some t → (t ⟨0, i⟩).isSome = true) ∧
      (∀ t, tI = some t → (t ⟨0, i⟩).isSome = true) := by
  unfold preTraverse at h
  exact (rootFold_true tD tI rootIdxs _ h).2

theorem preTraverse_renders (ffm : Mat4 → Frustum) (tD tI : Option TileTree)
    (st : LODVisitorState) :
    (preTraverse ffm tD tI st).1.renderDEM = [] ∧
      (preTraverse ffm tD tI st).1.renderIMG = [] := by
  unfold preTraverse
  obtain ⟨f1, f2, _, _⟩ := rootFold_frame tD tI rootIdxs _
  exact ⟨by rw [f1], by rw [f2]⟩

/-- C8: when updateLOD is false, preTraverse leaves the derived LOD data
(stored matrices, eye space frustum, viewport) unchanged from the prior
frame, and independently, when updateCulling is false, it leaves the
derived culling data (model space frustum, normal matrix, camera position)
unchanged, even though the externally set matrices may have changed. -/
theorem preTraverse_frozen (ffm : Mat4 → Frustum) (tD tI : Option TileTree)
    (st : LODVisitorState) :
    (st.updateLOD = false → (preTraverse ffm tD tI st).1.lodData = st.lodData) ∧
      (st.updateCulling = false → (preTraverse ffm tD tI st).1.cullData = st.cullData) := by
  have hlod : ∀ acc, (rootIdxs.foldl (rootStep tD tI) acc).1.lodData = acc.1.lodData :=
    fun acc => (rootFold_frame tD tI rootIdxs acc).2.2.1
  have hcull : ∀ acc, (rootIdxs.foldl (rootStep tD tI) acc).1.cullData = acc.1.cullData :=
    fun acc => (rootFold_frame tD tI rootIdxs acc).2.2.2
  constructor
  · intro hL
    simp only [preTraverse]
    rw [hlod]
    simp only [hL]
    by_cases hc : st.updateCulling = true <;> simp [hc]
  · intro hC
    simp only [preTraverse]
    rw [hcull]
    simp only [hC]
    by_cases hl : st.updateLOD = true <;> simp [hl, hC]

/-- A frustum with no planes and zero fields of view, used for concrete
instantiations. -/
def frustum0 : Frustum :=
  ⟨[], 0, 0⟩

/-- A concrete visitor state with both update flags cleared and empty
lists, used for concrete instantiations. -/
noncomputable def sampleState : LODVisitorState :=
  { viewport := (0, 0, 0, 0), matVM := 0, matP := 0,
    lodData := ⟨0, 0, frustum0, (0, 0, 0, 0)⟩,
    cullData := ⟨frustum0, 0, ⟨0, 0, 0⟩⟩,
    frameCount := 0, updateLOD := false, updateCulling := false,
    loadDEM := [], loadIMG := [], renderDEM := [], renderIMG := [],
    lastDEM := fun _ => 0, lastIMG := fun _ => 0 }

/-- Witness for preTraverse_frozen: with both flags cleared on a concrete
state, both derived data blocks are unchanged. -/
theorem preTraverse_frozen_witness :
    sampleState.updateLOD = false ∧ sampleState.updateCulling = false ∧
      (preTraverse (fun _ => frustum0) none none sampleState).1.lodData =
        sampleState.lodData ∧
      (preTraverse (fun _ => frustum0) none none sampleState).1.cullData =
        sampleState.cullData :=
  ⟨rfl, rfl, (preTraverse_frozen (fun _ => frustum0) none none sampleState).1 rfl,
    (preTraverse_frozen (fun _ => frustum0) none none sampleState).2 rfl⟩

/-- The twelve level 0 root TileIds in loop order. -/
def rootTileIds : List TileId :=
  rootIdxs.map fun i => ⟨0, i⟩

/-- C7: if any of the twelve roots is missing from an attached tree,
preTraverse pushes the missing root id (level 0) onto the load list of that
channel and returns false; in particular, with both trees empty and both
channels attached, it emits all twelve root ids into both load lists,
returns false, and the render lists stay empty for the frame because the
traversal aborts. -/
theorem preTraverse_missing_roots (ffm : Mat4 → Frustum) (tD tI : TileTree)
    (minLevel maxLevel : ℤ) (vis ref : TileId → Bool) (fuel : ℕ)
    (st : LODVisitorState) :
    (∀ i ∈ rootIdxs, tD ⟨0, i⟩ = none →
      TileId.mk 0 i ∈ (preTraverse ffm (some tD) (some tI) st).1.loadDEM ∧
        (preTraverse ffm (some tD) (some tI) st).2 = false) ∧
      (∀ i ∈ rootIdxs, tI ⟨0, i⟩ = none →
        TileId.mk 0 i ∈ (preTraverse ffm (some tD) (some tI) st).1.loadIMG ∧
          (preTraverse ffm (some tD) (some tI) st).2 = false) ∧
      ((∀ id, tD id = none) → (∀ id, tI id = none) →
        (preTraverse ffm (some tD) (some tI) st).1.loadDEM = rootTileIds ∧
          (preTraverse ffm (some tD) (some tI) st).1.loadIMG = rootTileIds ∧
          (preTraverse ffm (some tD) (some tI) st).2 = false ∧
          (visit ffm (some tD) (some tI) minLevel maxLevel vis ref fuel st).loadDEM =
            rootTileIds ∧
          (visit ffm (some tD) (some tI) minLevel maxLevel vis ref fuel st).loadIMG =
            rootTileIds ∧
          (visit ffm (some tD) (some tI) minLevel maxLevel vis ref fuel st).renderDEM = [] ∧
          (visit ffm (some tD) (some tI) minLevel maxLevel vis ref fuel st).renderIMG = []) := by
  refine ⟨?_, ?_, ?_⟩
  · intro i hi hm
    unfold preTraverse
    exact rootFold_missingDEM (some tD) (some tI) tD rfl rootIdxs _ i hi hm
  · intro i hi hm
    unfold preTraverse
    exact rootFold_missingIMG (some tD) (some tI) tI rfl rootIdxs _ i hi hm
  · intro hDm hIm
    have hD0 : (preTraverse ffm (some tD) (some tI) st).1.loadDEM = rootTileIds := by
      simp only [preTraverse]
      rw [(rootFold_allMissing tD tI hDm hIm rootIdxs _).1]
      simp [rootTileIds]
    have hI0 : (preTraverse ffm (some tD) (some tI) st).1.loadIMG = rootTileIds := by
      simp only [preTraverse]
      rw [(rootFold_allMissing tD tI hDm hIm rootIdxs _).2]
      simp [rootTileIds]
    have hF : (preTraverse ffm (some tD) (some tI) st).2 = false := by
      unfold preTraverse
      exact (rootFold_missingDEM (some tD) (some tI) tD rfl rootIdxs _ 0
        (by simp [rootIdxs]) (hDm _)).2
    obtain ⟨hr1, hr2⟩ := preTraverse_renders ffm (some tD) (some tI) st
    refine ⟨hD0, hI0, hF, ?_, ?_, ?_, ?_⟩ <;>
      simp only [visit, hF, Bool.false_eq_true, if_false] <;>
      first
      | exact hD0
      | exact hI0
      | exact hr1
      | exact hr2

/-- Witness for preTraverse_missing_roots: both trees completely empty. -/
theorem preTraverse_missing_roots_witness :
    ((∀ id : TileId, (fun _ : TileId => (none : Option NodeData)) id = none) ∧
      (∀ id : TileId, (fun _ : TileId => (none : Option NodeData)) id = none)) ∧
      (visit (fun _ => frustum0) (some fun _ => none) (some fun _ => none) 0 10
          (fun _ => true) (fun _ => true) 33 sampleState).loadDEM = rootTileIds ∧
      (visit (fun _ => frustum0) (some fun _ => none) (some fun _ => none) 0 10
          (fun _ => true) (fun _ => true) 33 sampleState).renderDEM = [] := by
  have h := (preTraverse_missing_roots (fun _ => frustum0) (fun _ => none) (fun _ => none)
    0 10 (fun _ => true) (fun _ => true) 33 sampleState).2.2
    (fun _ => rfl) (fun _ => rfl)
  exact ⟨⟨fun _ => rfl, fun _ => rfl⟩, h.2.2.2.1, h.2.2.2.2.2.1⟩

/-- C4: after any traversal, every TileId in loadDEM or loadIMG names a
node that does not currently exist in the corresponding tree, and its level
is at most maxLevel; this covers both the child ids emitted during
refinement and the level 0 root ids emitted by preTraverse (the hypothesis
0 <= maxLevel is what makes the level 0 root ids satisfy the bound). -/
theorem visit_load_fresh (ffm : Mat4 → Frustum) (tD tI : Option TileTree)
    (minLevel maxLevel : ℤ) (vis ref : TileId → Bool) (fuel : ℕ)
    (st : LODVisitorState) (hmax : 0 ≤ maxLevel) :
    (∀ t, tD = some t →
      ∀ id ∈ (visit ffm tD tI minLevel maxLevel vis ref fuel st).loadDEM,
        t id = none ∧ id.level ≤ maxLevel) ∧
      (∀ t, tI = some t →
        ∀ id ∈ (visit ffm tD tI minLevel maxLevel vis ref fuel st).loadIMG,
          t id = none ∧ id.level ≤ maxLevel) := by
  have hinv : TravInv tD tI maxLevel (visit ffm tD tI minLevel maxLevel vis ref fuel st) := by
    unfold visit
    by_cases hok : (preTraverse ffm tD tI st).2 = true
    · simp only [hok, if_true]
      refine foldl_preserve_mem (TravInv tD tI maxLevel) _ rootIdxs ?_ _
        (preTraverse_TravInv ffm tD tI maxLevel st hmax)
      intro acc i hi hacc
      refine visitLevel_TravInv tD tI minLevel maxLevel st.frameCount vis ref fuel
        ⟨0, i⟩ emptyState acc ?_ hacc
      intro t ht
      exact Or.inl ((preTraverse_true ffm tD tI st hok i hi).1 t ht)
    · rw [Bool.not_eq_true] at hok
      simp only [hok, Bool.false_eq_true, if_false]
      exact preTraverse_TravInv ffm tD tI maxLevel st hmax
  obtain ⟨h1, h2, _⟩ := hinv
  exact ⟨h1, h2⟩

/-- Witness for visit_load_fresh at a concrete configuration with empty
trees and maxLevel 10. -/
theorem visit_load_fresh_witness :
    (0 : ℤ) ≤ 10 ∧
      (∀ t, (some fun _ : TileId => (none : Option NodeData)) = some t →
        ∀ id ∈ (visit (fun _ => frustum0) (some fun _ => none) none 0 10
            (fun _ => true) (fun _ => true) 33 sampleState).loadDEM,
          t id = none ∧ id.level ≤ 10) :=
  ⟨by norm_num,
    (visit_load_fresh (fun _ => frustum0) (some fun _ => none) none 0 10
      (fun _ => true) (fun _ => true) 33 sampleState (by norm_num)).1⟩

/-- The DEM render list invariant on a visitor state: every pushed
RenderData belongs to a node of the attached DEM tree. -/
def RendInv (treeDEM : Option TileTree) (st : LODVisitorState) : Prop :=
  ∀ t, treeDEM = some t → RenderInv t st.renderDEM

theorem RendInv_addDEM (treeDEM : Option TileTree) (tX : TileTree)
    (maxLevel frame : ℤ) (node : Option TileId) (st : LODVisitorState)
    (h : RendInv treeDEM st) :
    RendInv treeDEM (addLoadChildrenDEM tX maxLevel frame node st) := by
  intro t ht
  rw [(addLoadChildrenDEM_frame tX maxLevel frame node st).2.2.1]
  exact h t ht

theorem RendInv_addIMG (treeDEM : Option TileTree) (tX : TileTree)
    (maxLevel frame : ℤ) (node : Option TileId) (st : LODVisitorState)
    (h : RendInv treeDEM st) :
    RendInv treeDEM (addLoadChildrenIMG tX maxLevel frame node st) := by
  intro t ht
  rw [(addLoadChildrenIMG_frame tX maxLevel frame node st).2.2.1]
  exact h t ht

theorem RendInv_drawLevel (treeDEM treeIMG : Option TileTree) (s : LODState)
    (st : LODVisitorState) (hs : rdOK treeDEM s) (h : RendInv treeDEM st) :
    RendInv treeDEM (drawLevel treeDEM treeIMG s st) := by
  intro t ht
  rw [(drawLevel_fields treeDEM treeIMG s st).2.2.2.2.1]
  subst ht
  intro x hx
  rcases List.mem_append.mp hx with hx | hx
  · exact h t rfl x hx
  · rcases hs t rfl with ⟨id, hid, hids⟩
    simp only [List.mem_singleton] at hx
    exact ⟨id, hx ▸ hid, hids⟩

theorem RendInv_mkState (treeDEM treeIMG : Option TileTree) (frame : ℤ)
    (tileId : TileId) (parent : LODState) (st : LODVisitorState)
    (h : RendInv treeDEM st) :
    RendInv treeDEM (mkState treeDEM treeIMG frame tileId parent st).2 := by
  intro t ht
  rw [(mkState_fields treeDEM treeIMG frame tileId parent st).2.2.1]
  exact h t ht

theorem handleRefine_RendInv (treeDEM treeIMG : Option TileTree) (maxLevel frame : ℤ)
    (s : LODState) (st : LODVisitorState) (hs : rdOK treeDEM s) (h : RendInv treeDEM st) :
    RendInv treeDEM (handleRefine treeDEM treeIMG maxLevel frame s st).2 := by
  rcases treeDEM with _ | tD
  · exact h
  · rcases treeIMG with _ | tI
    · simp only [handleRefine]
      split_ifs
      · exact h
      · exact RendInv_drawLevel _ _ _ _ hs (RendInv_addDEM _ tD maxLevel frame s.nodeDEM st h)
    · simp only [handleRefine]
      split_ifs <;>
        first
        | exact h
        | exact RendInv_addDEM _ tD maxLevel frame s.nodeDEM st h
        | exact RendInv_addIMG _ tI maxLevel frame s.nodeIMG st h
        | exact RendInv_addIMG _ tI maxLevel frame s.nodeIMG _
            (RendInv_addDEM _ tD maxLevel frame s.nodeDEM st h)
        | exact RendInv_drawLevel _ _ _ _ hs h
        | exact RendInv_drawLevel _ _ _ _ hs
            (RendInv_addDEM _ tD maxLevel frame s.nodeDEM st h)
        | exact RendInv_drawLevel _ _ _ _ hs
            (RendInv_addIMG _ tI maxLevel frame s.nodeIMG st h)
        | exact RendInv_drawLevel _ _ _ _ hs
            (RendInv_addIMG _ tI maxLevel frame s.nodeIMG _
              (RendInv_addDEM _ tD maxLevel frame s.nodeDEM st h))

theorem visitNode_RendInv (treeDEM treeIMG : Option TileTree)
    (minLevel maxLevel frame : ℤ) (vis ref : TileId → Bool) (s : LODState)
    (tileId : TileId) (st : LODVisitorState) (hs : rdOK treeDEM s)
    (h : RendInv treeDEM st) :
    RendInv treeDEM
      (visitNode treeDEM treeIMG minLevel maxLevel frame vis ref s tileId st).2 := by
  unfold visitNode
  split_ifs
  · split
    · exact RendInv_drawLevel _ _ _ _ hs h
    · by_cases hc : (decide (minLevel > tileId.level) || ref tileId) = true
      · simp only [hc, if_true]
        exact handleRefine_RendInv treeDEM treeIMG maxLevel frame s st hs h
      · simp only [hc, if_false]
        exact RendInv_drawLevel _ _ _ _ hs h
  · exact h

theorem visitLevel_RendInv (treeDEM treeIMG : Option TileTree)
    (minLevel maxLevel frame : ℤ) (vis ref : TileId → Bool) :
    ∀ (fuel : ℕ) (tileId : TileId) (parent : LODState) (st : LODVisitorState),
      (∀ t, treeDEM = some t →
        (t tileId).isSome = true ∨ ∃ pid, parent.rdDEM = some pid ∧ (t pid).isSome = true) →
      RendInv treeDEM st →
      RendInv treeDEM
        (visitLevel treeDEM treeIMG minLevel maxLevel frame vis ref fuel tileId parent st) := by
  intro fuel
  induction fuel with
  | zero => intro tileId parent st _ h; exact h
  | succ fuel ih =>
    intro tileId parent st hpar h
    simp only [visitLevel]
    have hrd : rdOK treeDEM (mkState treeDEM treeIMG frame tileId parent st).1 :=
      mkState_rdOK treeDEM treeIMG frame tileId parent st hpar
    have h1 : RendInv treeDEM (mkState treeDEM treeIMG frame tileId parent st).2 :=
      RendInv_mkState treeDEM treeIMG frame tileId parent st h
    have h2 : RendInv treeDEM
        (visitNode treeDEM treeIMG minLevel maxLevel frame vis ref
          (mkState treeDEM treeIMG frame tileId parent st).1 tileId
          (mkState treeDEM treeIMG frame tileId parent st).2).2 :=
      visitNode_RendInv treeDEM treeIMG minLevel maxLevel frame vis ref _ tileId _ hrd h1
    split
    · refine foldl_preserve (RendInv treeDEM) _ ?_ childIdxs _ h2
      intro acc i hacc
      refine ih (getChildTileId tileId i) _ acc ?_ hacc
      intro t ht
      rcases hrd t ht with ⟨pid, hpid, hpids⟩
      exact Or.inr ⟨pid, hpid, hpids⟩
    · exact h2

/-- getTexLayer as the renderer reads it from a render list entry: the
texture layer of the node data; a null entry or an absent node reads as
-1, the not resident value (spec section 3: textureLayer is at least 0 iff
the samples are resident). -/
def getTexLayer (t : TileTree) (x : Option TileId) : ℤ :=
  match x with
  | some id =>
    match t id with
    | some nd => nd.texLayer
    | none => -1
  | none => -1

/-- C1: every entry emitted into renderDEM by the visitor refers to a node
of the DEM tree; under the spec-modelled TreeManager residency invariant
(every node linked into the tree has its samples on the GPU, i.e. a
nonnegative texture layer), every entry has textureLayer at least 0, and the
value the renderer reads when it consumes the list (nothing mutates the
tree between traversal and rendering in a frame) is nonnegative, so the
missing-data guard of the renderer never skips an entry for its DEM layer. -/
theorem visit_renderDEM_resident (ffm : Mat4 → Frustum) (tI : Option TileTree)
    (minLevel maxLevel : ℤ) (vis ref : TileId → Bool) (fuel : ℕ)
    (st : LODVisitorState) (t : TileTree)
    (hres : ∀ id nd, t id = some nd → 0 ≤ nd.texLayer) :
    ∀ x ∈ (visit ffm (some t) tI minLevel maxLevel vis ref fuel st).renderDEM,
      (∃ id nd, x = some id ∧ t id = some nd ∧ 0 ≤ nd.texLayer) ∧
        0 ≤ getTexLayer t x := by
  have hinv : RendInv (some t)
      (visit ffm (some t) tI minLevel maxLevel vis ref fuel st) := by
    unfold visit
    by_cases hok : (preTraverse ffm (some t) tI st).2 = true
    · simp only [hok, if_true]
      have hbase : RendInv (some t) (preTraverse ffm (some t) tI st).1 := by
        intro t2 ht2
        rw [(preTraverse_renders ffm (some t) tI st).1]
        intro x hx
        simp at hx
      refine foldl_preserve_mem (RendInv (some t)) _ rootIdxs ?_ _ hbase
      intro acc i hi hacc
      refine visitLevel_RendInv (some t) tI minLevel maxLevel st.frameCount vis ref fuel
        ⟨0, i⟩ emptyState acc ?_ hacc
      intro t2 ht2
      exact Or.inl ((preTraverse_true ffm (some t) tI st hok i hi).1 t2 ht2)
    · rw [Bool.not_eq_true] at hok
      simp only [hok, Bool.false_eq_true, if_false]
      intro t2 ht2
      rw [(preTraverse_renders ffm (some t) tI st).1]
      intro x hx
      simp at hx
  intro x hx
  rcases hinv t rfl x hx with ⟨id, rfl, hids⟩
  rcases Option.isSome_iff_exists.mp hids with ⟨nd, hnd⟩
  have hlayer := hres id nd hnd
  refine ⟨⟨id, nd, rfl, hnd, hlayer⟩, ?_⟩
  simp [getTexLayer, hnd, hlayer]

/-- Witness for visit_renderDEM_resident: a DEM tree whose every node is
resident on layer 3. -/
theorem visit_renderDEM_resident_witness :
    (∀ (id : TileId) (nd : NodeData),
      (fun _ : TileId => some (NodeData.mk 3)) id = some nd → 0 ≤ nd.texLayer) ∧
      (∀ x ∈ (visit (fun _ => frustum0) (some fun _ => some (NodeData.mk 3)) none 0 10
          (fun _ => true) (fun _ => true) 2 sampleState).renderDEM,
        (∃ id nd, x = some id ∧ (fun _ : TileId => some (NodeData.mk 3)) id = some nd ∧
            0 ≤ nd.texLayer) ∧
          0 ≤ getTexLayer (fun _ => some (NodeData.mk 3)) x) := by
  have hres : ∀ (id : TileId) (nd : NodeData),
      (fun _ : TileId => some (NodeData.mk 3)) id = some nd → 0 ≤ nd.texLayer := by
    intro id nd h
    injection h with h2
    subst h2
    norm_num
  exact ⟨hres, visit_renderDEM_resident (fun _ => frustum0) none 0 10
    (fun _ => true) (fun _ => true) 2 sampleState (fun _ => some (NodeData.mk 3)) hres⟩

/-- The expression state.mNodeIMG ? childrenAvailable(state.mNodeIMG,
mTreeMgrIMG) : false of handleRefine. -/
def imgAvailable (t : TileTree) (nodeIMG : Option TileId) : Bool :=
  match nodeIMG with
  | some ni => childrenAvailable t ni
  | none => false

/-- C3: with both channels active and a visible node that needs refinement
(so its traversal state has a DEM node), handleRefine descends iff all four
DEM children exist with textureLayer at least 0 and all four IMG children
exist with textureLayer at least 0 (with no IMG node at this level the IMG
side counts as unavailable); when both are available the state is untouched;
otherwise the current node is emitted to both render lists, and for each
channel whose children are not all available the missing child ids are
pushed onto the load list of that channel and every already present child has
its lastUsedFrame stamped - both only when the level of the node is below
maxLevel. -/
theorem handleRefine_spec (tD tI : TileTree) (maxLevel frame : ℤ) (s : LODState)
    (st : LODVisitorState) (nd : TileId) (hnd : s.nodeDEM = some nd) :
    ((handleRefine (some tD) (some tI) maxLevel frame s st).1 =
        (childrenAvailable tD nd && imgAvailable tI s.nodeIMG)) ∧
      ((childrenAvailable tD nd && imgAvailable tI s.nodeIMG) = true →
        (handleRefine (some tD) (some tI) maxLevel frame s st).2 = st) ∧
      ((childrenAvailable tD nd && imgAvailable tI s.nodeIMG) = false →
        (handleRefine (some tD) (some tI) maxLevel frame s st).2.renderDEM =
            st.renderDEM ++ [s.rdDEM] ∧
          (handleRefine (some tD) (some tI) maxLevel frame s st).2.renderIMG =
            st.renderIMG ++ [s.rdIMG]) ∧
      (childrenAvailable tD nd = true →
        (handleRefine (some tD) (some tI) maxLevel frame s st).2.loadDEM = st.loadDEM ∧
          (handleRefine (some tD) (some tI) maxLevel frame s st).2.lastDEM = st.lastDEM) ∧
      (childrenAvailable tD nd = false →
        (handleRefine (some tD) (some tI) maxLevel frame s st).2.loadDEM =
            (if nd.level < maxLevel then st.loadDEM ++ missingChildren tD nd
              else st.loadDEM) ∧
          (nd.level < maxLevel → ∀ i ∈ childIdxs, (tD (getChildTileId nd i)).isSome = true →
            (handleRefine (some tD) (some tI) maxLevel frame s st).2.lastDEM
              (getChildTileId nd i) = frame)) ∧
      (imgAvailable tI s.nodeIMG = true →
        (handleRefine (some tD) (some tI) maxLevel frame s st).2.loadIMG = st.loadIMG ∧
          (handleRefine (some tD) (some tI) maxLevel frame s st).2.lastIMG = st.lastIMG) ∧
      (imgAvailable tI s.nodeIMG = false →
        (s.nodeIMG = none →
          (handleRefine (some tD) (some tI) maxLevel frame s st).2.loadIMG = st.loadIMG ∧
            (handleRefine (some tD) (some tI) maxLevel frame s st).2.lastIMG = st.lastIMG) ∧
          (∀ ni, s.nodeIMG = some ni →
            (handleRefine (some tD) (some tI) maxLevel frame s st).2.loadIMG =
                (if ni.level < maxLevel then st.loadIMG ++ missingChildren tI ni
                  else st.loadIMG) ∧
              (ni.level < maxLevel →
                ∀ i ∈ childIdxs, (tI (getChildTileId ni i)).isSome = true →
                  (handleRefine (some tD) (some tI) maxLevel frame s st).2.lastIMG
                    (getChildTileId ni i) = frame))) := by
  rcases hni : s.nodeIMG with _ | ni
  · by_cases hdem : childrenAvailable tD nd = true
    · have hr : handleRefine (some tD) (some tI) maxLevel frame s st =
          (false, drawLevel (some tD) (some tI) s st) := by
        simp [handleRefine, addLoadChildrenIMG, hnd, hni, hdem]
      rw [hr]
      obtain ⟨d1, d2, d3, d4, d5, d6⟩ := drawLevel_fields (some tD) (some tI) s st
      refine ⟨by simp [hdem, imgAvailable], ?_, ?_, ?_, ?_, ?_, ?_⟩
      · intro h; simp [imgAvailable] at h
      · intro _; exact ⟨by rw [d5], by rw [d6]⟩
      · intro _; exact ⟨by rw [d1], by rw [d3]⟩
      · intro h; rw [hdem] at h; simp at h
      · intro h; simp [imgAvailable] at h
      · intro _; exact ⟨fun _ => ⟨by rw [d2], by rw [d4]⟩, fun ni2 hni2 => by simp at hni2⟩
    · rw [Bool.not_eq_true] at hdem
      have hr : handleRefine (some tD) (some tI) maxLevel frame s st =
          (false, drawLevel (some tD) (some tI) s
            (addLoadChildrenDEM tD maxLevel frame (some nd) st)) := by
        simp [handleRefine, addLoadChildrenIMG, hnd, hni, hdem]
      rw [hr]
      obtain ⟨d1, d2, d3, d4, d5, d6⟩ :=
        drawLevel_fields (some tD) (some tI) s (addLoadChildrenDEM tD maxLevel frame (some nd) st)
      obtain ⟨a1, a2, a3, a4⟩ := addLoadChildrenDEM_frame tD maxLevel frame (some nd) st
      refine ⟨by simp [hdem], ?_, ?_, ?_, ?_, ?_, ?_⟩
      · intro h; rw [hdem] at h; simp at h
      · intro _
        constructor
        · rw [d5, a3]
        · rw [d6, a4]
      · intro h; rw [hdem] at h; simp at h
      · intro _
        constructor
        · rw [d1, addLoadChildrenDEM_loadDEM]
        · intro hlev i hi hp
          rw [d3]
          exact addLoadChildrenDEM_stamp tD maxLevel frame nd st hlev i hi hp
      · intro h; simp [imgAvailable] at h
      · intro _
        refine ⟨fun _ => ⟨by rw [d2, a1], by rw [d4, a2]⟩, fun ni2 hni2 => by simp at hni2⟩
  · by_cases hdem : childrenAvailable tD nd = true
    · by_cases himg : childrenAvailable tI ni = true
      · have hr : handleRefine (some tD) (some tI) maxLevel frame s st = (true, st) := by
          simp [handleRefine, hnd, hni, hdem, himg]
        rw [hr]
        refine ⟨by simp [hdem, himg, imgAvailable], fun _ => rfl, ?_, fun _ => ⟨rfl, rfl⟩,
          ?_, fun _ => ⟨rfl, rfl⟩, ?_⟩
        · intro h; simp [hdem, himg, imgAvailable] at h
        · intro h; rw [hdem] at h; simp at h
        · intro h; simp [himg, imgAvailable] at h
      · rw [Bool.not_eq_true] at himg
        have hr : handleRefine (some tD) (some tI) maxLevel frame s st =
            (false, drawLevel (some tD) (some tI) s
              (addLoadChildrenIMG tI maxLevel frame (some ni) st)) := by
          simp [handleRefine, hnd, hni, hdem, himg]
        rw [hr]
        obtain ⟨d1, d2, d3, d4, d5, d6⟩ := drawLevel_fields (some tD) (some tI) s
          (addLoadChildrenIMG tI maxLevel frame (some ni) st)
        obtain ⟨a1, a2, a3, a4⟩ := addLoadChildrenIMG_frame tI maxLevel frame (some ni) st
        refine ⟨by simp [himg, imgAvailable, hni], ?_, ?_, ?_, ?_, ?_, ?_⟩
        · intro h; simp [himg, imgAvailable, hni] at h
        · intro _
          constructor
          · rw [d5, a3]
          · rw [d6, a4]
        · intro _
          constructor
          · rw [d1, a1]
          · rw [d3, a2]
        · intro h; rw [hdem] at h; simp at h
        · intro h; simp [himg, imgAvailable, hni] at h
        · intro _
          refine ⟨fun hn => by simp at hn, fun ni2 hni2 => ?_⟩
          injection hni2 with hEq
          subst hEq
          constructor
          · rw [d2, addLoadChildrenIMG_loadIMG]
          · intro hlev i hi hp
            rw [d4]
            exact addLoadChildrenIMG_stamp tI maxLevel frame ni st hlev i hi hp
    · rw [Bool.not_eq_true] at hdem
      by_cases himg : childrenAvailable tI ni = true
      · have hr : handleRefine (some tD) (some tI) maxLevel frame s st =
            (false, drawLevel (some tD) (some tI) s
              (addLoadChildrenDEM tD maxLevel frame (some nd) st)) := by
          simp [handleRefine, hnd, hni, hdem, himg]
        rw [hr]
        obtain ⟨d1, d2, d3, d4, d5, d6⟩ := drawLevel_fields (some tD) (some tI) s
          (addLoadChildrenDEM tD maxLevel frame (some nd) st)
        obtain ⟨a1, a2, a3, a4⟩ := addLoadChildrenDEM_frame tD maxLevel frame (some nd) st
        refine ⟨by simp [hdem], ?_, ?_, ?_, ?_, ?_, ?_⟩
        · intro h; rw [hdem] at h; simp at h
        · intro _
          constructor
          · rw [d5, a3]
          · rw [d6, a4]
        · intro h; rw [hdem] at h; simp at h
        · intro _
          constructor
          · rw [d1, addLoadChildrenDEM_loadDEM]
          · intro hlev i hi hp
            rw [d3]
            exact addLoadChildrenDEM_stamp tD maxLevel frame nd st hlev i hi hp
        · intro _
          constructor
          · rw [d2, a1]
          · rw [d4, a2]
        · intro h; simp [himg, imgAvailable, hni] at h
      · rw [Bool.not_eq_true] at himg
        have hr : handleRefine (some tD) (some tI) maxLevel frame s st =
            (false, drawLevel (some tD) (some tI) s
              (addLoadChildrenIMG tI maxLevel frame (some ni)
                (addLoadChildrenDEM tD maxLevel frame (some nd) st))) := by
          simp [handleRefine, hnd, hni, hdem, himg]
        rw [hr]
        obtain ⟨d1, d2, d3, d4, d5, d6⟩ := drawLevel_fields (some tD) (some tI) s
          (addLoadChildrenIMG tI maxLevel frame (some ni)
            (addLoadChildrenDEM tD maxLevel frame (some nd) st))
        obtain ⟨a1, a2, a3, a4⟩ := addLoadChildrenDEM_frame tD maxLevel frame (some nd) st
        obtain ⟨b1, b2, b3, b4⟩ := addLoadChildrenIMG_frame tI maxLevel frame (some ni)
          (addLoadChildrenDEM tD maxLevel frame (some nd) st)
        refine ⟨by simp [hdem], ?_, ?_, ?_, ?_, ?_, ?_⟩
        · intro h; rw [hdem] at h; simp at h
        · intro _
          constructor
          · rw [d5, b3, a3]
          · rw [d6, b4, a4]
        · intro h; rw [hdem] at h; simp at h
        · intro _
          constructor
          · rw [d1, b1, addLoadChildrenDEM_loadDEM]
          · intro hlev i hi hp
            rw [d3, b2]
            exact addLoadChildrenDEM_stamp tD maxLevel frame nd st hlev i hi hp
        · intro h; simp [himg, imgAvailable, hni] at h
        · intro _
          refine ⟨fun hn => by simp at hn, fun ni2 hni2 => ?_⟩
          injection hni2 with hEq
          subst hEq
          constructor
          · rw [d2, addLoadChildrenIMG_loadIMG, a1]
          · intro hlev i hi hp
            rw [d4]
            exact addLoadChildrenIMG_stamp tI maxLevel frame ni
              (addLoadChildrenDEM tD maxLevel frame (some nd) st) hlev i hi hp

/-- Witness for handleRefine_spec: a node at level 1 whose DEM children are
all resident on layer 2 while the IMG tree is empty. -/
theorem handleRefine_spec_witness :
    (LODState.mk (some (TileId.mk 1 0)) (some (TileId.mk 1 0)) (some (TileId.mk 1 0))
        (some (TileId.mk 1 0))).nodeDEM = some (TileId.mk 1 0) ∧
      (handleRefine (some fun _ => some (NodeData.mk 2)) (some fun _ => none) 10 7
          (LODState.mk (some (TileId.mk 1 0)) (some (TileId.mk 1 0)) (some (TileId.mk 1 0))
            (some (TileId.mk 1 0))) sampleState).1 =
        (childrenAvailable (fun _ => some (NodeData.mk 2)) (TileId.mk 1 0) &&
          imgAvailable (fun _ => none)
            (LODState.mk (some (TileId.mk 1 0)) (some (TileId.mk 1 0)) (some (TileId.mk 1 0))
              (some (TileId.mk 1 0))).nodeIMG) :=
  ⟨rfl, (handleRefine_spec (fun _ => some (NodeData.mk 2)) (fun _ => none) 10 7
    (LODState.mk (some (TileId.mk 1 0)) (some (TileId.mk 1 0)) (some (TileId.mk 1 0))
      (some (TileId.mk 1 0))) sampleState (TileId.mk 1 0) rfl).1⟩

/-- The subset of the VistaPlanet state that the per frame bounds phase and
the parameter setters touch: the planet parameters, the tile bounds invalid
bit of the flag word (VistaPlanet.hpp with the numeric flag constants is
not among the given sources, so the bit is modelled as a Bool), and the
bounding boxes of the resident DEM nodes. -/
structure PlanetBoundsState where
  params : PlanetParameters
  flagTileBoundsInvalid : Bool
  bounds : TileId → Option BBox

/-- VistaPlanet::setRadii (VistaPlanet.cpp, lines 411-415): store the new
radii and or the tile bounds invalid flag into mFlags. -/
def setRadii (radii : Vec3) (st : PlanetBoundsState) : PlanetBoundsState :=
  { st with
    params := { st.params with radii := radii },
    flagTileBoundsInvalid := true }

/-- VistaPlanet::setHeightScale (VistaPlanet.cpp, lines 425-429): store the
new height scale and or the tile bounds invalid flag into mFlags. -/
def setHeightScale (scale : ℝ) (st : PlanetBoundsState) : PlanetBoundsState :=
  { st with
    params := { st.params with heightScale := scale },
    flagTileBoundsInvalid := true }

/-- VistaPlanet::updateTileBounds (VistaPlanet.cpp, lines 297-305): when
the tile bounds invalid flag is set, run the UpdateBoundsVisitor and clear
the flag; otherwise do nothing.  The code of UpdateBoundsVisitor is not among
the given sources; the recompute parameter stands for the bounding boxes it
derives from the min/max pyramid of each node and the current parameters. -/
def updateTileBounds (recompute : PlanetParameters → TileId → Option BBox)
    (st : PlanetBoundsState) : PlanetBoundsState :=
  if st.flagTileBoundsInvalid then
    { st with bounds := recompute st.params, flagTileBoundsInvalid := false }
  else st

/-- C9: setRadii and setHeightScale each set the tile bounds invalid flag
in addition to storing the new parameter value; the per frame bounds phase
recomputes the bounds exactly when that flag is set and then clears it, and
a frame with the flag clear leaves all bounding boxes (indeed the whole
state) untouched. -/
theorem bounds_phase_spec (recompute : PlanetParameters → TileId → Option BBox)
    (st : PlanetBoundsState) (radii : Vec3) (scale : ℝ) :
    (setRadii radii st).flagTileBoundsInvalid = true ∧
      (setRadii radii st).params.radii = radii ∧
      (setRadii radii st).bounds = st.bounds ∧
      (setHeightScale scale st).flagTileBoundsInvalid = true ∧
      (setHeightScale scale st).params.heightScale = scale ∧
      (setHeightScale scale st).bounds = st.bounds ∧
      (st.flagTileBoundsInvalid = true →
        (updateTileBounds recompute st).bounds = recompute st.params ∧
          (updateTileBounds recompute st).flagTileBoundsInvalid = false) ∧
      (st.flagTileBoundsInvalid = false → updateTileBounds recompute st = st) := by
  refine ⟨rfl, rfl, rfl, rfl, rfl, rfl, ?_, ?_⟩
  · intro h
    unfold updateTileBounds
    rw [if_pos h]
    exact ⟨rfl, rfl⟩
  · intro h
    unfold updateTileBounds
    rw [h]
    simp

/-- Witness for bounds_phase_spec at a concrete state with the flag
clear. -/
theorem bounds_phase_spec_witness :
    (PlanetBoundsState.mk ⟨⟨1, 1, 1⟩, 1, 1, 0, 10⟩ false fun _ => none).flagTileBoundsInvalid =
        false ∧
      updateTileBounds (fun _ _ => none)
          (PlanetBoundsState.mk ⟨⟨1, 1, 1⟩, 1, 1, 0, 10⟩ false fun _ => none) =
        PlanetBoundsState.mk ⟨⟨1, 1, 1⟩, 1, 1, 0, 10⟩ false fun _ => none :=
  ⟨rfl, (bounds_phase_spec (fun _ _ => none)
    (PlanetBoundsState.mk ⟨⟨1, 1, 1⟩, 1, 1, 0, 10⟩ false fun _ => none)
    ⟨1, 1, 1⟩ 1).2.2.2.2.2.2.2 rfl⟩

/-- An init or fini call on a tile source; sources are identified by the
pointer value, modelled as a natural number. -/
inductive SrcEvent
  | initDEM (s : ℕ)
  | finiDEM (s : ℕ)
  | initIMG (s : ℕ)
  | finiIMG (s : ℕ)
deriving DecidableEq, Repr

/-- The source wiring state of VistaPlanet: the attached DEM and IMG source
pointers (none for null), the source attached to each TreeManager, and
whether the LODVisitor and the TileRenderer currently point at the
respective tree manager. -/
structure PlanetSrcState where
  srcDEM : Option ℕ
  srcIMG : Option ℕ
  treeMgrDEMSource : Option ℕ
  treeMgrIMGSource : Option ℕ
  visitorMgrDEM : Bool
  visitorMgrIMG : Bool
  rendererMgrDEM : Bool
  rendererMgrIMG : Bool
deriving DecidableEq, Repr

/-- VistaPlanet::setDEMSource (VistaPlanet.cpp, lines 185-210): if the
pointer equals the attached one, return immediately without any effect;
otherwise finalize the old source and detach visitor, renderer and tree
manager, store the new pointer and, when it is non null, run its init and
reattach tree manager, visitor and renderer.  The returned list records the
init and fini calls made, in order. -/
def setDEMSource (src : Option ℕ) (st : PlanetSrcState) : PlanetSrcState × List SrcEvent :=
  if st.srcDEM = src then (st, [])
  else
    let fin :=
      match st.srcDEM with
      | some old =>
        ({st with visitorMgrDEM := false, rendererMgrDEM := false, treeMgrDEMSource := none},
          [SrcEvent.finiDEM old])
      | none => (st, [])
    let st1 := {fin.1 with srcDEM := src}
    match src with
    | some snew =>
      ({st1 with treeMgrDEMSource := some snew, visitorMgrDEM := true, rendererMgrDEM := true},
        fin.2 ++ [SrcEvent.initDEM snew])
    | none => (st1, fin.2)

/-- VistaPlanet::setIMGSource (VistaPlanet.cpp, lines 220-245), the IMG
analogue of setDEMSource. -/
def setIMGSource (src : Option ℕ) (st : PlanetSrcState) : PlanetSrcState × List SrcEvent :=
  if st.srcIMG = src then (st, [])
  else
    let fin :=
      match st.srcIMG with
      | some old =>
        ({st with visitorMgrIMG := false, rendererMgrIMG := false, treeMgrIMGSource := none},
          [SrcEvent.finiIMG old])
      | none => (st, [])
    let st1 := {fin.1 with srcIMG := src}
    match src with
    | some snew =>
      ({st1 with treeMgrIMGSource := some snew, visitorMgrIMG := true, rendererMgrIMG := true},
        fin.2 ++ [SrcEvent.initIMG snew])
    | none => (st1, fin.2)

theorem setDEMSource_src (src : Option ℕ) (st : PlanetSrcState) :
    (setDEMSource src st).1.srcDEM = src := by
  unfold setDEMSource
  by_cases h : st.srcDEM = src
  · rw [if_pos h]; exact h
  · rw [if_neg h]
    rcases st.srcDEM with _ | old <;> rcases src with _ | snew <;> simp

theorem setIMGSource_src (src : Option ℕ) (st : PlanetSrcState) :
    (setIMGSource src st).1.srcIMG = src := by
  unfold setIMGSource
  by_cases h : st.srcIMG = src
  · rw [if_pos h]; exact h
  · rw [if_neg h]
    rcases st.srcIMG with _ | old <;> rcases src with _ | snew <;> simp

/-- C10: calling setDEMSource (or setIMGSource) with the already attached
source pointer is a complete no-op - the state is returned unchanged and no
init or fini call is made, so the tree manager keeps its source and the
visitor and renderer keep their managers; consequently each setter is
idempotent: the second of two consecutive calls with the same argument does
nothing. -/
theorem setSource_idempotent (st : PlanetSrcState) (src srcI : Option ℕ) :
    (st.srcDEM = src → setDEMSource src st = (st, [])) ∧
      setDEMSource src (setDEMSource src st).1 = ((setDEMSource src st).1, []) ∧
      (st.srcIMG = srcI → setIMGSource srcI st = (st, [])) ∧
      setIMGSource srcI (setIMGSource srcI st).1 = ((setIMGSource srcI st).1, []) := by
  have hnoopD : ∀ st2 : PlanetSrcState, st2.srcDEM = src → setDEMSource src st2 = (st2, []) := by
    intro st2 h
    unfold setDEMSource
    rw [if_pos h]
  have hnoopI : ∀ st2 : PlanetSrcState, st2.srcIMG = srcI → setIMGSource srcI st2 = (st2, []) := by
    intro st2 h
    unfold setIMGSource
    rw [if_pos h]
  exact ⟨hnoopD st, hnoopD _ (setDEMSource_src src st), hnoopI st,
    hnoopI _ (setIMGSource_src srcI st)⟩

/-- Witness for setSource_idempotent: the DEM source 5 is already attached
and setting it again changes nothing. -/
theorem setSource_idempotent_witness :
    (PlanetSrcState.mk (some 5) none (some 5) none true false true false).srcDEM = some 5 ∧
      setDEMSource (some 5)
          (PlanetSrcState.mk (some 5) none (some 5) none true false true false) =
        (PlanetSrcState.mk (some 5) none (some 5) none true false true false, []) :=
  ⟨rfl, (setSource_idempotent
    (PlanetSrcState.mk (some 5) none (some 5) none true false true false)
    (some 5) none).1 rfl⟩

end CosmoScout
